import Mathlib

/-!
Verification of the JSON body-parser middleware (src/lib/json.js) of
xprezzo-json-parser.

The middleware parses JSON request bodies.  Its own logic is:
construction-time option resolution and validation (class JsonParser),
per-request gating (checkParse / createReader), and body decoding with a
strict first-character check and syntax-error normalization (parseBody,
createStrictSyntaxError, firstchar, getCharset, normalizeJsonSyntaxError).

External collaborators (the runtime JSON parser `JSON.parse`, the
streaming Reader of xprezzo-raw-body, the content-type parser, the
type-is matcher and the bytes limit parser) are not part of the
repository source; where a claim depends on them they are modelled from
the spec, and every such definition carries a doc comment starting with
`Modelled from the spec:`.

JavaScript values are embedded as follows: strings are Lean `String`s
(lists of unicode scalar values), machine numbers that occur are small
non-negative counts so `Nat`/`Int` are used directly, JSON numbers are
modelled as integers (the spec-modelled reference parser and encoder
restrict the JSON number grammar to optional-sign integer literals;
no claim mentions fractional or exponent literals), exceptions are
`Except`, and a JavaScript Error object is a record of its `name`, its
`message`, its `stack` and its remaining own properties.
-/

/-- A JSON value as produced by the parser: the data model of the parsed
request body.  Objects keep their key insertion order, as JavaScript
objects do. -/
inductive Json where
  | null : Json
  | bool (b : Bool) : Json
  | num (n : Int) : Json
  | str (s : String) : Json
  | arr (elems : List Json) : Json
  | obj (members : List (String × Json)) : Json

/-- JSON whitespace, the four characters `JSON.parse` skips between
tokens (ECMA-404 / ECMA-262 JSONWhiteSpace). -/
def jsonWs (c : Char) : Bool :=
  c = ' ' || c = '\t' || c = '\n' || c = '\r'

/-- Whitespace class of the JavaScript regular-expression escape `\s`:
WhiteSpace and LineTerminator characters of ECMA-262. -/
def jsWhitespace (c : Char) : Bool :=
  c = ' ' || c = '\t' || c = '\n' || c.toNat = 11 || c.toNat = 12 || c = '\r' ||
  c.toNat = 0xa0 || c.toNat = 0x1680 ||
  (0x2000 ≤ c.toNat && c.toNat ≤ 0x200a) ||
  c.toNat = 0x2028 || c.toNat = 0x2029 || c.toNat = 0x202f ||
  c.toNat = 0x205f || c.toNat = 0x3000 || c.toNat = 0xfeff

/-- LineTerminator characters of ECMA-262: the characters the
regular-expression dot `.` does not match. -/
def jsLineTerminator (c : Char) : Bool :=
  c = '\n' || c = '\r' || c.toNat = 0x2028 || c.toNat = 0x2029

/-- Result of executing the regular expression `/^\s*(.)/` on a list of
characters and extracting the first capture group, with JavaScript
backtracking semantics: the greedy `\s*` first consumes a whitespace
head character and matches the remainder; only if that fails does the
dot try the current character, which succeeds exactly when it is not a
line terminator.  `none` models a failed match (`exec` returning
`null`). -/
def execFirst : List Char → Option Char
  | [] => none
  | c :: rest =>
    if jsWhitespace c then
      match execFirst rest with
      | some r => some r
      | none => if jsLineTerminator c then none else some c
    else if jsLineTerminator c then none else some c

/-- Drop leading JSON whitespace, as `JSON.parse` does before each
token. -/
def skipWs (l : List Char) : List Char := l.dropWhile jsonWs

/-- Numeric value of a decimal digit character. -/
def digitVal (c : Char) : Nat := c.toNat - 48

/-- Fold a list of decimal digit characters into the natural number they
denote, most significant digit first. -/
def digitsToNat (ds : List Char) : Nat :=
  ds.foldl (fun a c => a * 10 + digitVal c) 0

/-- Modelled from the spec: the number production of the runtime JSON
parser, restricted to optional-sign integer literals (see the module
doc comment). -/
def parseNumber (cs : List Char) : Option (Json × List Char) :=
  if cs.head? = some '-' then
    let ds := cs.tail.takeWhile Char.isDigit
    if ds = [] then none
    else some (.num (-(digitsToNat ds : Int)), cs.tail.dropWhile Char.isDigit)
  else
    let ds := cs.takeWhile Char.isDigit
    if ds = [] then none
    else some (.num (digitsToNat ds), cs.dropWhile Char.isDigit)

/-- Value of a hexadecimal digit character, `none` on other
characters. -/
def hexVal (c : Char) : Option Nat :=
  if c.isDigit then some (c.toNat - 48)
  else if 'a' ≤ c ∧ c ≤ 'f' then some (c.toNat - 87)
  else if 'A' ≤ c ∧ c ≤ 'F' then some (c.toNat - 55)
  else none

/-- Decoded character of a single-character JSON string escape
(`\" \\ \/ \b \f \n \r \t`), `none` on other escapes. -/
def unescapeShort (e : Char) : Option Char :=
  if e = '"' then some '"'
  else if e = '\\' then some '\\'
  else if e = '/' then some '/'
  else if e = 'b' then some (Char.ofNat 8)
  else if e = 'f' then some (Char.ofNat 12)
  else if e = 'n' then some '\n'
  else if e = 'r' then some '\r'
  else if e = 't' then some '\t'
  else none

/-- Modelled from the spec: the string production of the runtime JSON
parser, applied after the opening quote.  Returns the decoded
characters and the remainder after the closing quote.  Control
characters below U+0020 must be escaped; `\uXXXX` escapes are decoded
through `Char.ofNat`. -/
def parseStringBody : List Char → Option (List Char × List Char)
  | [] => none
  | c :: rest =>
    if c = '"' then some ([], rest)
    else if c = '\\' then
      match rest with
      | [] => none
      | e :: rest2 =>
        if e = 'u' then
          match rest2 with
          | h1 :: h2 :: h3 :: h4 :: rest3 =>
            match hexVal h1, hexVal h2, hexVal h3, hexVal h4 with
            | some a, some b, some c3, some d =>
              (parseStringBody rest3).map
                (fun p => (Char.ofNat (((a * 16 + b) * 16 + c3) * 16 + d) :: p.1, p.2))
            | _, _, _, _ => none
          | _ => none
        else
          match unescapeShort e with
          | some d => (parseStringBody rest2).map (fun p => (d :: p.1, p.2))
          | none => none
    else if c.toNat < 32 then none
    else (parseStringBody rest).map (fun p => (c :: p.1, p.2))

/-- Insertion of a key/value pair into the member list of a JavaScript
object under construction: assigning to an existing key overwrites its
value in place, otherwise the pair is appended.  This is how
`JSON.parse` treats duplicate keys (the last value wins, at the first
position of the key). -/
def jsInsert : List (String × Json) → String → Json → List (String × Json)
  | [], k, v => [(k, v)]
  | (k0, v0) :: rest, k, v =>
    if k0 = k then (k0, v) :: rest else (k0, v0) :: jsInsert rest k v

mutual

/-- Modelled from the spec: the value production of the runtime JSON
parser (`JSON.parse`), by recursive descent over the characters with a
fuel bound on the recursion depth.  Returns the parsed value and the
unconsumed remainder. -/
def parseV : Nat → List Char → Option (Json × List Char)
  | 0, _ => none
  | fuel + 1, cs =>
    match skipWs cs with
    | [] => none
    | c :: rest =>
      if c = '{' then
        let r2 := skipWs rest
        if r2.head? = some '}' then some (.obj [], r2.tail)
        else parseMembers fuel r2 []
      else if c = '[' then
        let r2 := skipWs rest
        if r2.head? = some ']' then some (.arr [], r2.tail)
        else parseItemsA fuel r2 []
      else if c = '"' then
        match parseStringBody rest with
        | some p => some (.str (String.mk p.1), p.2)
        | none => none
      else if c = 'n' then
        match rest with
        | 'u' :: 'l' :: 'l' :: r => some (.null, r)
        | _ => none
      else if c = 't' then
        match rest with
        | 'r' :: 'u' :: 'e' :: r => some (.bool true, r)
        | _ => none
      else if c = 'f' then
        match rest with
        | 'a' :: 'l' :: 's' :: 'e' :: r => some (.bool false, r)
        | _ => none
      else if c = '-' ∨ c.isDigit then parseNumber (c :: rest)
      else none

/-- Element loop of the array production: parses one value, then either
continues after a comma or closes at `]`. -/
def parseItemsA : Nat → List Char → List Json → Option (Json × List Char)
  | 0, _, _ => none
  | fuel + 1, cs, acc =>
    match parseV fuel cs with
    | none => none
    | some (v, r) =>
      let r1 := skipWs r
      if r1.head? = some ',' then parseItemsA fuel r1.tail (acc ++ [v])
      else if r1.head? = some ']' then some (.arr (acc ++ [v]), r1.tail)
      else none

/-- Member loop of the object production: parses a quoted key, a colon
and a value, then either continues after a comma or closes at `}`.
Members are accumulated with `jsInsert`. -/
def parseMembers : Nat → List Char → List (String × Json) → Option (Json × List Char)
  | 0, _, _ => none
  | fuel + 1, cs, acc =>
    match cs with
    | [] => none
    | c :: rest =>
      if c = '"' then
        match parseStringBody rest with
        | none => none
        | some (key, r1) =>
          let r2 := skipWs r1
          if r2.head? = some ':' then
            match parseV fuel r2.tail with
            | none => none
            | some (v, r3) =>
              let r4 := skipWs r3
              if r4.head? = some ',' then
                parseMembers fuel (skipWs r4.tail) (jsInsert acc (String.mk key) v)
              else if r4.head? = some '}' then
                some (.obj (jsInsert acc (String.mk key) v), r4.tail)
              else none
          else none
      else none

end

/-- Modelled from the spec: the runtime JSON parser `JSON.parse` as a
total function, `none` on syntax errors.  The fuel `length + 1`
suffices for every input (each recursion level consumes input).  The
parsed value must be followed by whitespace only. -/
def JSONparse (s : String) : Option Json :=
  match parseV (s.data.length + 1) s.data with
  | some (v, r) => if skipWs r = [] then some v else none
  | none => none

/-- Decimal digit characters of a natural number, most significant
first (via Mathlib's `Nat.digits`). -/
def encodeNat (n : Nat) : List Char :=
  if n = 0 then ['0'] else (Nat.digits 10 n).reverse.map Nat.digitChar

/-- Decimal representation of an integer, as `JSON.stringify` renders
integral numbers. -/
def encodeInt (i : Int) : List Char :=
  if i < 0 then '-' :: encodeNat i.natAbs else encodeNat i.natAbs

/-- Escape sequence a reference JSON encoder (`JSON.stringify`) emits
for one string character: quote and backslash are escaped, control
characters below U+0020 use the short escapes `\b \t \n \f \r` or a
`\u00XX` escape, all other characters stand for themselves. -/
def escapeChar (c : Char) : List Char :=
  if c = '"' then ['\\', '"']
  else if c = '\\' then ['\\', '\\']
  else if c.toNat = 8 then ['\\', 'b']
  else if c = '\t' then ['\\', 't']
  else if c = '\n' then ['\\', 'n']
  else if c.toNat = 12 then ['\\', 'f']
  else if c = '\r' then ['\\', 'r']
  else if c.toNat < 32 then
    ['\\', 'u', '0', '0', Nat.digitChar (c.toNat / 16), Nat.digitChar (c.toNat % 16)]
  else [c]

/-- Concatenated escapes of a list of string characters. -/
def escList : List Char → List Char
  | [] => []
  | c :: cs => escapeChar c ++ escList cs

/-- Quoted, escaped rendering of a JSON string. -/
def encodeStringJ (s : String) : List Char :=
  '"' :: escList s.data ++ ['"']

mutual

/-- Modelled from the spec: a reference JSON encoder (`JSON.stringify`
without indentation), rendering a value to characters. -/
def encodeJson : Json → List Char
  | .null => "null".data
  | .bool true => "true".data
  | .bool false => "false".data
  | .num i => encodeInt i
  | .str s => encodeStringJ s
  | .arr [] => ['[', ']']
  | .arr (x :: xs) => '[' :: (encodeJson x ++ encodeItemsA xs) ++ [']']
  | .obj [] => ['{', '}']
  | .obj ((k, v) :: kvs) =>
    '{' :: (encodeStringJ k ++ ':' :: encodeJson v ++ encodeMembersA kvs) ++ ['}']

/-- Comma-separated continuation of array element rendering. -/
def encodeItemsA : List Json → List Char
  | [] => []
  | x :: xs => ',' :: encodeJson x ++ encodeItemsA xs

/-- Comma-separated continuation of object member rendering. -/
def encodeMembersA : List (String × Json) → List Char
  | [] => []
  | (k, v) :: kvs => ',' :: encodeStringJ k ++ ':' :: encodeJson v ++ encodeMembersA kvs

end

/-- The rendered string of a value under the reference encoder. -/
def stringify (v : Json) : String := String.mk (encodeJson v)

/-- Does the member list contain the key? -/
def keysContains : List (String × Json) → String → Bool
  | [], _ => false
  | (k0, _) :: t, k => if k0 = k then true else keysContains t k

/-- Are the keys of the member list pairwise distinct? -/
def nodupKeys : List (String × Json) → Bool
  | [] => true
  | (k0, _) :: t => !(keysContains t k0) && nodupKeys t

mutual

/-- Well-formedness of a value as a JavaScript value: every object node
has pairwise distinct keys (a JavaScript object cannot hold a duplicate
key). -/
def wfJson : Json → Bool
  | .null => true
  | .bool _ => true
  | .num _ => true
  | .str _ => true
  | .arr xs => wfArr xs
  | .obj kvs => nodupKeys kvs && wfMembers kvs

/-- Well-formedness of every element of an array. -/
def wfArr : List Json → Bool
  | [] => true
  | x :: xs => wfJson x && wfArr xs

/-- Well-formedness of every member value of an object. -/
def wfMembers (ms : List (String × Json)) : Bool :=
  match ms with
  | [] => true
  | (_, w) :: t => wfJson w && wfMembers t

end

mutual

/-- Fuel needed by `parseV` to parse the rendering of a value: one unit
per `parseV` call plus one per loop step. -/
def fm : Json → Nat
  | .arr xs => 1 + fmItems xs
  | .obj kvs => 1 + fmMembers kvs
  | _ => 1

/-- Fuel needed by `parseItemsA` for the remaining elements. -/
def fmItems : List Json → Nat
  | [] => 0
  | x :: xs => 1 + fm x + fmItems xs

/-- Fuel needed by `parseMembers` for the remaining members. -/
def fmMembers : List (String × Json) → Nat
  | [] => 0
  | (_, v) :: t => 1 + fm v + fmMembers t

end

/-- A JavaScript Error object: its `name` (held on the prototype, hence
untouched by own-property deletion), its `message` and `stack` own
properties, and its remaining own properties as key/value pairs. -/
structure ErrObj where
  name : String
  message : String
  stack : String
  props : List (String × String)
deriving DecidableEq

/-- Replace the first occurrence of `pat` in `s` by `rep`, as the
JavaScript `String.prototype.replace` does with a string pattern: at
most one occurrence is replaced, an absent pattern leaves the string
unchanged, and the empty pattern inserts `rep` at the start. -/
def replaceFirstAux (pat rep : List Char) : List Char → List Char
  | [] => []
  | c :: cs =>
    if pat.isPrefixOf (c :: cs) then rep ++ (c :: cs).drop pat.length
    else c :: replaceFirstAux pat rep cs

/-- String-level wrapper of `replaceFirstAux`. -/
def replaceFirst (s pat rep : String) : String :=
  if pat.data.isEmpty then String.mk (rep.data ++ s.data)
  else String.mk (replaceFirstAux pat.data rep.data s.data)

/-- Modelled from the spec: the native SyntaxError the runtime JSON
parser raises, with a native-looking message naming the offending
token and its position ("a native-looking syntax error (message/stack)
at a realistic position"), a stack whose first line carries the
message, and a parser-internal own property (discarded by
normalization). -/
def engineError (body : String) : ErrObj :=
  match body.data.dropWhile jsonWs with
  | [] =>
    { name := "SyntaxError"
      message := "Unexpected end of JSON input"
      stack := "SyntaxError: Unexpected end of JSON input\n    at JSON.parse (<anonymous>)"
      props := [("rawPosition", "0")] }
  | c :: _ =>
    let pos := (body.data.takeWhile jsonWs).length
    let msg := "Unexpected token " ++ String.singleton c ++ " in JSON at position " ++ toString pos
    { name := "SyntaxError"
      message := msg
      stack := "SyntaxError: " ++ msg ++ "\n    at JSON.parse (<anonymous>)"
      props := [("rawPosition", toString pos)] }

/-- Modelled from the spec: `JSON.parse` with its exception, as an
`Except`: the parsed value on success, the native syntax error on
failure. -/
def JSONparseE (body : String) : Except ErrObj Json :=
  match JSONparse body with
  | some v => .ok v
  | none => .error (engineError body)

/-- The TypeError raised by indexing the `null` returned by a failed
`exec` in `firstchar` (`/^\s*(.)/.exec(str)[1]`). -/
def nullMatchTypeError : ErrObj :=
  { name := "TypeError"
    message := "Cannot read property 1 of null"
    stack := "TypeError: Cannot read property 1 of null"
    props := [] }

/-- Embedding of `normalizeJsonSyntaxError(error, obj)` of
src/lib/json.js: every own property of the error except `message` and
`stack` is deleted, the stack is rewritten by substituting the original
message text with the normalized message, and the message is replaced
by the normalized message. -/
def normalizeJsonSyntaxError (error : ErrObj) (objMessage objStack : String) : ErrObj :=
  { name := error.name
    message := objMessage
    stack := replaceFirst objStack error.message objMessage
    props := [] }

/-- Embedding of `createStrictSyntaxError(str, char)` of
src/lib/json.js: the body is truncated up to (not including) the first
occurrence of the offending character (`str.substring(0, str.indexOf(char))`,
the empty string when the character does not occur), a `#` placeholder
is appended, the result is parsed with the runtime JSON parser to
obtain a native syntax error, and the placeholder is substituted back
into the message; the error is then normalized.  The `JSON.parse` call
never returns normally on such input; if it did, the thrown
`SyntaxError("strict violation")` would be caught and normalized the
same way. -/
def createStrictSyntaxError (str : String) (char : Char) : ErrObj :=
  let partialChars :=
    if char ∈ str.data then str.data.takeWhile (fun c => c != char) else []
  let partialStr := String.mk (partialChars ++ ['#'])
  match JSONparseE partialStr with
  | .ok _ =>
    let sv : ErrObj :=
      { name := "SyntaxError"
        message := "strict violation"
        stack := "SyntaxError: strict violation"
        props := [] }
    normalizeJsonSyntaxError sv
      (replaceFirst sv.message "#" (String.singleton char)) sv.stack
  | .error e =>
    normalizeJsonSyntaxError e
      (replaceFirst e.message "#" (String.singleton char)) e.stack

/-- Embedding of `firstchar(str)` of src/lib/json.js: the first capture
group of `/^\s*(.)/.exec(str)`.  `none` stands for the `null` match
result, whose indexing raises `nullMatchTypeError` in `parseBody`. -/
def firstchar (str : String) : Option Char := execFirst str.data

/-- Embedding of `parseBody(body)` of src/lib/json.js, for a resolved
strict flag and reviver.  Empty text short-circuits to an empty object;
in strict mode the first-character check runs before the parser (a
failed regex match raises the TypeError from `firstchar`); a parser
exception is normalized with its own message and stack.  The reviver is
the optional `JSON.parse` reviver, abstracted as a transformation of
the parsed value and applied identically by the reference decoder. -/
def parseBody (strict : Bool) (rev : Json → Json) (body : String) : Except ErrObj Json :=
  if body.length = 0 then .ok (Json.obj [])
  else if strict then
    match firstchar body with
    | none => .error nullMatchTypeError
    | some first =>
      if first = '{' ∨ first = '[' then
        match JSONparseE body with
        | .ok v => .ok (rev v)
        | .error e => .error (normalizeJsonSyntaxError e e.message e.stack)
      else .error (createStrictSyntaxError body first)
  else
    match JSONparseE body with
    | .ok v => .ok (rev v)
    | .error e => .error (normalizeJsonSyntaxError e e.message e.stack)

/-- An HTTP error as built by the `createError` factory: status code,
human message, machine-readable kind (`type`), and the extra `charset`
and `body` fields used by this component. -/
structure HttpError where
  status : Nat
  message : String
  type : String
  charset : Option String
  body : Option String
deriving DecidableEq

/-- First value bound to the key in a property list. -/
def lookupProp : List (String × String) → String → Option String
  | [], _ => none
  | (k, v) :: t, key => if k = key then some v else lookupProp t key

/-- Modelled from the spec: the streaming Reader passes any exception
thrown by the parse callback to the error continuation as an HTTP 400
error of kind `entity.parse.failed` (the exception's own `type` when it
carries one), carrying the offending raw body text. -/
def readerWrapParseError (e : ErrObj) (body : String) : HttpError :=
  { status := 400
    message := e.message
    type := (lookupProp e.props "type").getD "entity.parse.failed"
    charset := none
    body := some body }

/-- The observable result of handing a decoded body text to the parse
callback inside the Reader: the parsed value, or the wrapped HTTP
error. -/
def handleParse (strict : Bool) (rev : Json → Json) (body : String) : Except HttpError Json :=
  match parseBody strict rev body with
  | .ok v => .ok v
  | .error e => .error (readerWrapParseError e body)

/-- Truthiness of a JSON value as a JavaScript value (`req.body || {}`):
`null`, `false`, `0` and the empty string are falsy, every object and
array is truthy. -/
def jsonTruthy : Json → Bool
  | .null => false
  | .bool b => b
  | .num n => !(n == 0)
  | .str s => !(s == "")
  | .arr _ => true
  | .obj _ => true

/-- Truthiness of a possibly absent body field (`undefined` is
falsy). -/
def jsTruthyBody : Option Json → Bool
  | none => false
  | some v => jsonTruthy v

/-- ASCII lower-casing of one character, as `String.prototype.toLowerCase`
acts on the ASCII charset tokens involved here. -/
def toLowerJs (c : Char) : Char :=
  if 'A' ≤ c ∧ c ≤ 'Z' then Char.ofNat (c.toNat + 32) else c

/-- ASCII upper-casing of one character. -/
def toUpperJs (c : Char) : Char :=
  if 'a' ≤ c ∧ c ≤ 'z' then Char.ofNat (c.toNat - 32) else c

/-- String-level ASCII lower-casing. -/
def strLower (s : String) : String := String.mk (s.data.map toLowerJs)

/-- String-level ASCII upper-casing. -/
def strUpper (s : String) : String := String.mk (s.data.map toUpperJs)

/-- The request as this component observes it: the `_body`
already-parsed flag, the `body` field (`none` when absent), whether the
request carries a body per `type-is` HTTP semantics
(Content-Length/Transfer-Encoding), whether the Content-Type header is
present and parsable, and its charset parameter as sent (`none` when
the header has no charset parameter). -/
structure Req where
  _body : Bool
  body : Option Json
  hasBody : Bool
  contentTypeParsable : Bool
  charsetParam : Option String

/-- Embedding of `getCharset(req)` of src/lib/json.js: the lower-cased
charset parameter of the parsed Content-Type header, the empty string
when the header has no charset parameter, `undefined` (`none`) when the
header is absent or unparsable.  The content-type parser itself is
external; its outcome is the `contentTypeParsable`/`charsetParam`
fields of the request. -/
def getCharset (req : Req) : Option String :=
  if req.contentTypeParsable then some (strLower (req.charsetParam.getD "")) else none

/-- The configuration closed over by the request handler: the resolved
options and the type predicate (the external `type-is` matcher or the
caller's function, abstracted as a boolean predicate over the
request). -/
structure Config where
  parsedLimit : Int
  parsedInflate : Bool
  parsedStrict : Bool
  shouldParse : Req → Bool

/-- Result of the `checkParse` gate: pass through by calling `next()`,
pass an error to `next(err)`, or proceed to the streaming body read. -/
inductive CheckResult where
  | pass : CheckResult
  | passErr (e : HttpError) : CheckResult
  | proceed : CheckResult

/-- Embedding of `checkParse(req, res, next, self, charset)` of
src/lib/json.js: already-parsed requests and bodyless requests pass
through, then the type predicate is evaluated, then the charset prefix
is checked; only then does the streaming read proceed. -/
def checkParse (req : Req) (self : Config) (charset : String) : CheckResult :=
  if req._body then .pass
  else if !req.hasBody then .pass
  else if !(self.shouldParse req) then .pass
  else if charset.take 4 ≠ "utf-" then
    .passErr
      { status := 415
        message := "unsupported charset \"" ++ strUpper charset ++ "\""
        type := "charset.unsupported"
        charset := some charset
        body := none }
  else .proceed

/-- The observable outcome of one invocation of the middleware on a
request: pass through (`next()`), error (`next(err)`), or hand the
request to the streaming Reader with the resolved charset as the
encoding (the Reader then buffers, optionally inflates, verifies,
decodes and calls `parseBody`). -/
inductive Outcome where
  | next (req : Req) : Outcome
  | nextErr (e : HttpError) (req : Req) : Outcome
  | readBody (req : Req) (charset : String) : Outcome

/-- The `req.body = req.body || {}` defaulting the handler performs on
every request before the gate. -/
def bodyDefault (req : Req) : Req :=
  { req with body := if jsTruthyBody req.body then req.body else some (Json.obj []) }

/-- The charset resolved per RFC 7159 sec 8.1: `getCharset(req) || 'utf-8'`
(both `undefined` and the empty string fall back to utf-8). -/
def resolvedCharset (req : Req) : String :=
  match getCharset req with
  | some cs => if cs = "" then "utf-8" else cs
  | none => "utf-8"

/-- Embedding of the request handler returned by `createReader()` of
src/lib/json.js: default the body field, resolve the charset, run the
`checkParse` gate, and on success hand the request to the streaming
Reader. -/
def createReader (self : Config) (req0 : Req) : Outcome :=
  let req := bodyDefault req0
  let charset := resolvedCharset req
  match checkParse req self charset with
  | .pass => .next req
  | .passErr e => .nextErr e req
  | .proceed => .readBody req charset

/-- A JavaScript value as it occurs in the options record: `undefined`,
`null`, booleans, numbers, strings, or a function (tagged, since only
its identity matters to the constructor). -/
inductive JsValue where
  | undefined : JsValue
  | null : JsValue
  | bool (b : Bool) : JsValue
  | num (n : Int) : JsValue
  | str (s : String) : JsValue
  | func (tag : String) : JsValue
deriving DecidableEq

/-- JavaScript truthiness of an options value. -/
def jsTruthy : JsValue → Bool
  | .undefined => false
  | .null => false
  | .bool b => b
  | .num n => !(n == 0)
  | .str s => !(s == "")
  | .func _ => true

/-- Is the value a function (`typeof v === 'function'`)? -/
def isFunc : JsValue → Bool
  | .func _ => true
  | _ => false

/-- The JavaScript `||` on options values. -/
def jsOrVal (a b : JsValue) : JsValue := if jsTruthy a then a else b

/-- The options record accepted by the constructor; absent options are
`undefined`. -/
structure JsOptions where
  limit : JsValue
  inflate : JsValue
  strict : JsValue
  type : JsValue
  verify : JsValue
deriving DecidableEq

/-- An options record with every option absent. -/
def emptyOpts : JsOptions :=
  { limit := .undefined, inflate := .undefined, strict := .undefined,
    type := .undefined, verify := .undefined }

/-- Modelled from the spec: the external byte-limit parser (`bytes.parse`);
the default limit string "100kb" denotes 102400 bytes, which is all the
claims depend on. -/
def bytesParse : JsValue → Int
  | .str s => if s = "100kb" then 102400 else 0
  | .num n => n
  | _ => 0

/-- The resolved options produced by the constructor.  The
`shouldParse` closure built from `parsedType` (wrapping the external
`type-is` matcher when `parsedType` is not a function) is embedded
abstractly as the `Config.shouldParse` predicate of the request
handler. -/
structure ParsedOpts where
  parsedLimit : Int
  parsedInflate : Bool
  parsedStrict : Bool
  parsedType : JsValue
  parsedVerify : JsValue
deriving DecidableEq

/-- Embedding of the `JsonParser` constructor of src/lib/json.js
(lines 101-120): resolve `limit`, `inflate`, `strict`, `type` and
`verify`, and throw a TypeError when the resolved verify is neither
`false` nor a function.  `options || {}` makes an absent record behave
as an empty one. -/
def JsonParser (options : Option JsOptions) : Except ErrObj ParsedOpts :=
  let opts := options.getD emptyOpts
  let parsedLimit : Int :=
    match opts.limit with
    | .num n => n
    | v => bytesParse (jsOrVal v (.str "100kb"))
  let parsedInflate : Bool := opts.inflate != JsValue.bool false
  let parsedStrict : Bool := opts.strict != JsValue.bool false
  let parsedType := jsOrVal opts.type (.str "application/json")
  let parsedVerify := jsOrVal opts.verify (.bool false)
  if parsedVerify ≠ JsValue.bool false ∧ ¬(isFunc parsedVerify = true) then
    .error
      { name := "TypeError"
        message := "option verify must be function"
        stack := "TypeError: option verify must be function"
        props := [] }
  else
    .ok
      { parsedLimit := parsedLimit
        parsedInflate := parsedInflate
        parsedStrict := parsedStrict
        parsedType := parsedType
        parsedVerify := parsedVerify }

/-- JSON whitespace is regular-expression whitespace. -/
theorem jsonWs_imp_jsWhitespace (c : Char) (h : jsonWs c = true) : jsWhitespace c = true := by
  simp only [jsonWs, Bool.or_eq_true, decide_eq_true_eq] at h
  rcases h with ((h | h) | h) | h <;> subst h <;> decide

/-- A line terminator is regular-expression whitespace. -/
theorem jsLineTerminator_imp_jsWhitespace (c : Char) (h : jsLineTerminator c = true) :
    jsWhitespace c = true := by
  simp only [jsLineTerminator, Bool.or_eq_true, decide_eq_true_eq] at h
  rcases h with ((h | h) | h) | h
  · subst h; decide
  · subst h; decide
  · simp [jsWhitespace, h]
  · simp [jsWhitespace, h]

/-- The regex match of `/^\s*(.)/` succeeds on a non-whitespace,
non-line-terminator head character. -/
theorem execFirst_cons_not_ws (c : Char) (l : List Char)
    (h : jsWhitespace c = false) : execFirst (c :: l) = some c := by
  have hlt : jsLineTerminator c = false := by
    cases hl : jsLineTerminator c
    · rfl
    · rw [jsLineTerminator_imp_jsWhitespace c hl] at h; cases h
  simp [execFirst, h, hlt]

/-- A successful regex match is preserved by prepending whitespace. -/
theorem execFirst_append_ws (pre : List Char) (l : List Char) (x : Char)
    (hpre : ∀ c ∈ pre, jsWhitespace c = true) (h : execFirst l = some x) :
    execFirst (pre ++ l) = some x := by
  induction pre with
  | nil => simpa using h
  | cons p ps ih =>
    have hp : jsWhitespace p = true := hpre p (by simp)
    have ihh := ih (fun c hc => hpre c (by simp [hc]))
    simp only [List.cons_append, execFirst, hp, if_true]
    rw [show execFirst (ps.append l) = some x from ihh]

/-- Every character of the `takeWhile` prefix satisfies the
predicate. -/
theorem mem_takeWhile_pred (p : Char → Bool) (l : List Char) (x : Char)
    (h : x ∈ l.takeWhile p) : p x = true := by
  induction l with
  | nil => cases h
  | cons c cs ih =>
    by_cases hc : p c = true
    · rw [List.takeWhile_cons, if_pos hc] at h
      rcases List.mem_cons.mp h with h | h
      · subst h; exact hc
      · exact ih h
    · rw [List.takeWhile_cons, if_neg hc] at h; cases h

/-- The head of the `dropWhile` remainder fails the predicate. -/
theorem head_dropWhile_neg (p : Char → Bool) (l : List Char) (c : Char) (t : List Char)
    (h : l.dropWhile p = c :: t) : p c = false := by
  induction l with
  | nil => cases h
  | cons a as ih =>
    by_cases ha : p a = true
    · rw [List.dropWhile_cons, if_pos ha] at h; exact ih h
    · rw [List.dropWhile_cons, if_neg ha] at h
      cases h
      exact Bool.not_eq_true _ ▸ Bool.of_not_eq_true ha

/-- Does the head of the list (when there is one) fail the
predicate? -/
def headFails (p : Char → Bool) : List Char → Prop
  | [] => True
  | c :: _ => p c = false

/-- `takeWhile` of an all-satisfying block followed by a failing head
is the block itself. -/
theorem takeWhile_append_block (p : Char → Bool) (a b : List Char)
    (ha : ∀ x ∈ a, p x = true) (hb : headFails p b) :
    (a ++ b).takeWhile p = a := by
  induction a with
  | nil =>
    cases b with
    | nil => rfl
    | cons c t =>
      have hc : p c = false := hb
      simp [List.takeWhile_cons, hc]
  | cons x xs ih =>
    have hx : p x = true := ha x (by simp)
    simp only [List.cons_append, List.takeWhile_cons, hx, if_true]
    rw [ih (fun y hy => ha y (by simp [hy]))]

/-- `dropWhile` of an all-satisfying block followed by a failing head
is the tail. -/
theorem dropWhile_append_block (p : Char → Bool) (a b : List Char)
    (ha : ∀ x ∈ a, p x = true) (hb : headFails p b) :
    (a ++ b).dropWhile p = b := by
  induction a with
  | nil =>
    cases b with
    | nil => rfl
    | cons c t =>
      have hc : p c = false := hb
      simp [List.dropWhile_cons, hc]
  | cons x xs ih =>
    have hx : p x = true := ha x (by simp)
    simp only [List.cons_append, List.dropWhile_cons, hx, if_true]
    exact ih (fun y hy => ha y (by simp [hy]))

/-- `skipWs` does not move past a non-whitespace head. -/
theorem skipWs_cons_not_ws (c : Char) (l : List Char) (h : jsonWs c = false) :
    skipWs (c :: l) = c :: l := by
  simp [skipWs, List.dropWhile_cons, h]

/-- The first non-`\s` character of a list of characters, the value the
spec intends `firstchar` to produce. -/
def firstNonWs (l : List Char) : Option Char :=
  (l.dropWhile jsWhitespace).head?

/-- When a first non-whitespace character exists, the
`/^\s*(.)/` regex finds exactly it. -/
theorem execFirst_of_firstNonWs (l : List Char) (c : Char)
    (h : firstNonWs l = some c) : execFirst l = some c := by
  unfold firstNonWs at h
  cases hd : l.dropWhile jsWhitespace with
  | nil => rw [hd] at h; cases h
  | cons x t =>
    rw [hd] at h
    have hxc : x = c := by simpa using h
    subst hxc
    have hx : jsWhitespace x = false := head_dropWhile_neg _ _ _ _ hd
    have hdec : l = l.takeWhile jsWhitespace ++ (x :: t) := by
      conv_lhs => rw [← List.takeWhile_append_dropWhile (p := jsWhitespace) (l := l)]
      rw [hd]
    rw [hdec]
    exact execFirst_append_ws _ _ _ (fun y hy => mem_takeWhile_pred _ _ _ hy)
      (execFirst_cons_not_ws _ _ hx)

/-- C3: for every request with an empty decoded body text, `parseBody`
returns the empty object whatever the strict flag and reviver are;
neither the strict first-character check nor the JSON parser could have
produced this result, since on the empty text the first would raise the
null-match TypeError and the second a syntax error. -/
theorem c3_empty_body_short_circuit :
    ∀ (strict : Bool) (rev : Json → Json),
      parseBody strict rev "" = .ok (Json.obj []) ∧
      firstchar "" = none ∧ JSONparse "" = none := by
  intro strict rev
  refine ⟨?_, rfl, rfl⟩
  cases strict <;> rfl

/-- C9: on the body consisting of a single newline, the `/^\s*(.)/`
regex fails to match (the newline is `\s`-whitespace but the dot does
not match a line terminator), so strict-mode `parseBody` raises the
TypeError from indexing the null match result in `firstchar`, not a
strict-violation or normalized syntax error. -/
theorem c9_firstchar_not_total :
    parseBody true (fun v => v) "\n" = .error nullMatchTypeError ∧
    firstchar "\n" = none ∧
    nullMatchTypeError.name = "TypeError" :=
  ⟨rfl, rfl, rfl⟩

/-- C10: the constructor disables strict (resp. inflate) exactly when
the option is the boolean `false`; every other value, including the
falsy `0`, `null` and the empty string, leaves the flag on.  The
handler consumes these flags as `Config.parsedStrict`/`parsedInflate`. -/
theorem c10_strict_inflate_exact_false :
    ∀ (opts : JsOptions) (po : ParsedOpts), JsonParser (some opts) = .ok po →
      ((po.parsedStrict = false ↔ opts.strict = JsValue.bool false) ∧
       (po.parsedInflate = false ↔ opts.inflate = JsValue.bool false)) := by
  intro opts po h
  unfold JsonParser at h
  simp only [Option.getD] at h
  split at h
  · cases h
  · cases h
    constructor
    · show (opts.strict != JsValue.bool false) = false ↔ _
      simp [bne_eq_false_iff_eq]
    · show (opts.inflate != JsValue.bool false) = false ↔ _
      simp [bne_eq_false_iff_eq]

/-- Options setting strict to the falsy number 0 and inflate to
`null`. -/
def c10opts : JsOptions :=
  { limit := .undefined, inflate := .null, strict := .num 0,
    type := .undefined, verify := .undefined }

/-- The resolved options the constructor produces for `c10opts`. -/
def c10po : ParsedOpts :=
  { parsedLimit := 102400, parsedInflate := true, parsedStrict := true,
    parsedType := .str "application/json", parsedVerify := .bool false }

/-- Witness for C10: with `strict = 0` and `inflate = null` both flags
resolve to `true`. -/
theorem c10_strict_inflate_witness :
    JsonParser (some c10opts) = .ok c10po ∧
    (c10po.parsedStrict = false ↔ c10opts.strict = JsValue.bool false) ∧
    (c10po.parsedInflate = false ↔ c10opts.inflate = JsValue.bool false) :=
  ⟨rfl, (c10_strict_inflate_exact_false c10opts c10po rfl).1,
    (c10_strict_inflate_exact_false c10opts c10po rfl).2⟩

/-- Is the construction result an error (a thrown TypeError)? -/
def isErrE (r : Except ErrObj ParsedOpts) : Bool :=
  match r with
  | .error _ => true
  | .ok _ => false

/-- The TypeError the constructor throws on a bad verify option. -/
def verifyTypeError : ErrObj :=
  { name := "TypeError"
    message := "option verify must be function"
    stack := "TypeError: option verify must be function"
    props := [] }

/-- A truthy options value is not the boolean `false`. -/
theorem jsTruthy_ne_bool_false (v : JsValue) (h : jsTruthy v = true) :
    v ≠ JsValue.bool false := by
  intro hv
  subst hv
  cases h

/-- C8 (amended): construction throws the TypeError exactly when the
`verify` option is truthy and not a function; a falsy non-callable
`verify` (such as `0`, `null` or the empty string) is coerced to
`false` by `verify || false` and construction succeeds with
verification disabled.  An absent options record also succeeds. -/
theorem c8_verify_validation :
    ∀ opts : JsOptions,
      (isErrE (JsonParser (some opts)) = (jsTruthy opts.verify && !(isFunc opts.verify))) ∧
      (jsTruthy opts.verify = true → isFunc opts.verify = false →
        JsonParser (some opts) = .error verifyTypeError) ∧
      isErrE (JsonParser none) = false := by
  intro opts
  refine ⟨?_, ?_, rfl⟩
  · unfold JsonParser jsOrVal
    simp only [Option.getD]
    by_cases hv : jsTruthy opts.verify = true
    · simp only [hv, if_true]
      by_cases hf : isFunc opts.verify = true
      · rw [if_neg]
        · simp [isErrE, hv, hf]
        · intro hcond
          exact hcond.2 hf
      · rw [if_pos]
        · simp [isErrE, hv, Bool.not_eq_true _ ▸ hf]
        · exact ⟨jsTruthy_ne_bool_false _ hv, hf⟩
    · have hv' : jsTruthy opts.verify = false := by
        cases h : jsTruthy opts.verify
        · rfl
        · exact absurd h hv
      simp only [hv', Bool.false_eq_true, if_false]
      rw [if_neg]
      · simp [isErrE, hv']
      · intro hcond
        exact hcond.1 rfl
  · intro hv hf
    unfold JsonParser jsOrVal
    simp only [Option.getD, hv, if_true]
    rw [if_pos ⟨jsTruthy_ne_bool_false _ hv, fun hh => by rw [hf] at hh; cases hh⟩]
    rfl

/-- Options providing the falsy, non-callable number 0 as `verify`. -/
def c8opts : JsOptions :=
  { limit := .undefined, inflate := .undefined, strict := .undefined,
    type := .undefined, verify := .num 0 }

/-- Counterexample to C8 as stated: `verify: 0` is provided and is not
callable, yet construction succeeds (no TypeError), because
`opts.verify || false` coerces every falsy value to `false` before the
check. -/
theorem c8_counterexample :
    JsonParser (some c8opts) =
      .ok { parsedLimit := 102400, parsedInflate := true, parsedStrict := true,
            parsedType := .str "application/json", parsedVerify := .bool false } ∧
    isFunc (JsValue.num 0) = false ∧ JsValue.num 0 ≠ JsValue.undefined :=
  ⟨rfl, rfl, by decide⟩

/-- Options providing a truthy, non-callable string as `verify`. -/
def c8wopts : JsOptions :=
  { limit := .undefined, inflate := .undefined, strict := .undefined,
    type := .undefined, verify := .str "x" }

/-- Witness for the amended C8: a truthy non-function `verify` throws
the TypeError at construction. -/
theorem c8_verify_validation_witness :
    JsonParser (some c8wopts) = .error verifyTypeError :=
  (c8_verify_validation c8wopts).2.1 rfl rfl

/-- Charset resolution is unaffected by the body-field defaulting (it
reads only the header fields). -/
theorem resolvedCharset_bodyDefault (req : Req) :
    resolvedCharset (bodyDefault req) = resolvedCharset req := rfl

/-- C4 (amended): a request that passes the already-parsed, has-body
and type checks but whose resolved charset (the lower-cased charset
parameter, utf-8 when absent or unparsable) does not start with `utf-`
is answered with `next(err)` where the error has HTTP status 415, kind
`charset.unsupported`, and a `charset` field equal to the resolved
(lower-cased) charset; the streaming read never happens (the outcome is
`nextErr`, not `readBody`). -/
theorem c4_charset_unsupported :
    ∀ (self : Config) (req : Req) (cs : String),
      req._body = false → req.hasBody = true →
      self.shouldParse (bodyDefault req) = true →
      resolvedCharset req = cs → cs.take 4 ≠ "utf-" →
      createReader self req =
        .nextErr
          { status := 415
            message := "unsupported charset \"" ++ strUpper cs ++ "\""
            type := "charset.unsupported"
            charset := some cs
            body := none }
          (bodyDefault req) := by
  intro self req cs h1 h2 h3 h4 h5
  have hrc : resolvedCharset (bodyDefault req) = cs := by
    rw [resolvedCharset_bodyDefault]; exact h4
  have hcp : checkParse (bodyDefault req) self cs =
      .passErr
        { status := 415
          message := "unsupported charset \"" ++ strUpper cs ++ "\""
          type := "charset.unsupported"
          charset := some cs
          body := none } := by
    unfold checkParse
    rw [show (bodyDefault req)._body = false from h1,
        show (bodyDefault req).hasBody = true from h2, h3]
    simp only [Bool.false_eq_true, if_false, Bool.not_true, if_pos h5]
  simp only [createReader, hrc, hcp]

/-- The request of the C4 counterexample: charset sent in upper case. -/
def c4req : Req :=
  { _body := false, body := none, hasBody := true,
    contentTypeParsable := true, charsetParam := some "ISO-8859-1" }

/-- A configuration whose type predicate accepts every request. -/
def c4cfg : Config :=
  { parsedLimit := 102400, parsedInflate := true, parsedStrict := true,
    shouldParse := fun _ => true }

/-- The `charset` field of an error outcome. -/
def outcomeErrCharset : Outcome → Option String
  | .nextErr e _ => e.charset
  | _ => none

/-- Counterexample to C4 as stated: the charset was sent as
`ISO-8859-1` but the error's `charset` field carries the lower-cased
`iso-8859-1`, not the charset as sent — `getCharset` lower-cases before
the check, so case is not preserved. -/
theorem c4_counterexample :
    outcomeErrCharset (createReader c4cfg c4req) = some "iso-8859-1" ∧
    c4req.charsetParam = some "ISO-8859-1" ∧
    (some "iso-8859-1" : Option String) ≠ some "ISO-8859-1" :=
  ⟨rfl, rfl, by decide⟩

/-- Witness for the amended C4 at the concrete counterexample request:
status 415, kind `charset.unsupported`, resolved charset
`iso-8859-1`. -/
theorem c4_charset_unsupported_witness :
    createReader c4cfg c4req =
      .nextErr
        { status := 415
          message := "unsupported charset \"" ++ strUpper "iso-8859-1" ++ "\""
          type := "charset.unsupported"
          charset := some "iso-8859-1"
          body := none }
        (bodyDefault c4req) :=
  c4_charset_unsupported c4cfg c4req "iso-8859-1" rfl rfl rfl rfl (by decide)

/-- C5 (amended): the gate of the handler.  An already-parsed request
(truthy body) passes through unchanged; a bodyless request passes
through with `{}` attached; a request whose content-type does not match
passes through whatever its charset is, with an absent body defaulted
to `{}`; a matching request with a non-`utf-` charset is answered with
the charset error before any streaming read.  The first two cases
consult neither the type predicate nor the charset; the third never
reads the charset check result; only the fourth builds an error. -/
theorem c5_gate_order :
    ∀ (self : Config) (req : Req),
      (req._body = true → jsTruthyBody req.body = true →
        createReader self req = .next req) ∧
      (req._body = false → req.hasBody = false →
        createReader self req = .next (bodyDefault req)) ∧
      (req._body = false → req.hasBody = true →
        self.shouldParse (bodyDefault req) = false →
        createReader self req = .next (bodyDefault req)) ∧
      (req._body = false → req.hasBody = true →
        self.shouldParse (bodyDefault req) = true →
        (resolvedCharset req).take 4 ≠ "utf-" →
        ∃ e, createReader self req = .nextErr e (bodyDefault req) ∧
          e.type = "charset.unsupported" ∧ e.status = 415) ∧
      (req.body = none → (bodyDefault req).body = some (Json.obj [])) := by
  intro self req
  refine ⟨?_, ?_, ?_, ?_, ?_⟩
  · intro h1 htr
    have hbd : bodyDefault req = req := by
      unfold bodyDefault
      rw [htr]
      rfl
    have hcp : checkParse req self (resolvedCharset req) = .pass := by
      unfold checkParse
      rw [h1]
      simp
    simp only [createReader, hbd, hcp]
  · intro h1 h2
    have hcp : checkParse (bodyDefault req) self (resolvedCharset (bodyDefault req)) = .pass := by
      unfold checkParse
      rw [show (bodyDefault req)._body = false from h1,
          show (bodyDefault req).hasBody = false from h2]
      simp
    simp only [createReader, hcp]
  · intro h1 h2 h3
    have hcp : checkParse (bodyDefault req) self (resolvedCharset (bodyDefault req)) = .pass := by
      unfold checkParse
      rw [show (bodyDefault req)._body = false from h1,
          show (bodyDefault req).hasBody = true from h2, h3]
      simp
    simp only [createReader, hcp]
  · intro h1 h2 h3 h5
    refine ⟨{ status := 415
              message := "unsupported charset \"" ++ strUpper (resolvedCharset req) ++ "\""
              type := "charset.unsupported"
              charset := some (resolvedCharset req)
              body := none }, ?_, rfl, rfl⟩
    have hcp : checkParse (bodyDefault req) self (resolvedCharset (bodyDefault req)) =
        .passErr
          { status := 415
            message := "unsupported charset \"" ++ strUpper (resolvedCharset req) ++ "\""
            type := "charset.unsupported"
            charset := some (resolvedCharset req)
            body := none } := by
      rw [resolvedCharset_bodyDefault]
      unfold checkParse
      rw [show (bodyDefault req)._body = false from h1,
          show (bodyDefault req).hasBody = true from h2, h3]
      simp only [Bool.false_eq_true, if_false, Bool.not_true, if_pos h5]
    simp only [createReader, hcp]
  · intro hb
    unfold bodyDefault
    rw [hb]
    rfl

/-- A bodiless-body request with non-matching content-type for the C5
counterexample. -/
def c5req : Req :=
  { _body := false, body := none, hasBody := true,
    contentTypeParsable := false, charsetParam := none }

/-- A configuration whose type predicate rejects every request. -/
def c5cfg : Config :=
  { parsedLimit := 102400, parsedInflate := true, parsedStrict := true,
    shouldParse := fun _ => false }

/-- Counterexample to C5 as stated: on a type-mismatched request whose
body field is absent, the handler does not leave the request unchanged;
`req.body = req.body || {}` runs before the gate and attaches an empty
object. -/
theorem c5_counterexample :
    createReader c5cfg c5req = .next (bodyDefault c5req) ∧
    c5req.body = none ∧
    (bodyDefault c5req).body = some (Json.obj []) :=
  ⟨rfl, rfl, rfl⟩

/-- Witness for the amended C5 at a concrete request: the
type-mismatch case passes through with the defaulted body. -/
theorem c5_gate_order_witness :
    createReader c5cfg c5req = .next (bodyDefault c5req) :=
  (c5_gate_order c5cfg c5req).2.2.1 rfl rfl rfl

/-- The strict-violation error strips every own property: both branches
of `createStrictSyntaxError` normalize. -/
theorem createStrictSyntaxError_props (s : String) (c : Char) :
    (createStrictSyntaxError s c).props = [] := by
  unfold createStrictSyntaxError
  simp only [normalizeJsonSyntaxError]
  split <;> rfl

/-- A string of length zero is the empty string. -/
theorem eq_empty_of_length_zero (s : String) (h : s.length = 0) : s = "" := by
  cases s with
  | mk data =>
    cases data with
    | nil => rfl
    | cons c t => simp [String.length] at h

/-- The empty string does not parse. -/
theorem JSONparse_empty : JSONparse "" = none := rfl

/-- C2: in strict mode, every non-empty body whose first non-whitespace
character exists and is neither `{` nor `[` fails with the
strict-violation syntax error — wrapped by the Reader into HTTP 400 of
kind `entity.parse.failed` — independently of the reviver and before
the JSON parser is invoked on the body; with strict disabled the same
bodies (and in particular every well-formed scalar) parse to the value
the JSON parser yields. -/
theorem c2_strict_scalar_rejection :
    ∀ (rev : Json → Json) (body : String) (c : Char),
      (firstNonWs body.data = some c → c ≠ '{' → c ≠ '[' →
        parseBody true rev body = .error (createStrictSyntaxError body c) ∧
        handleParse true rev body =
          .error (readerWrapParseError (createStrictSyntaxError body c) body) ∧
        (readerWrapParseError (createStrictSyntaxError body c) body).status = 400 ∧
        (readerWrapParseError (createStrictSyntaxError body c) body).type =
          "entity.parse.failed" ∧
        (readerWrapParseError (createStrictSyntaxError body c) body).body = some body) ∧
      (∀ v, JSONparse body = some v → parseBody false rev body = .ok (rev v)) := by
  intro rev body c
  constructor
  · intro hf hc1 hc2
    have hne : body.length ≠ 0 := by
      intro h0
      rw [eq_empty_of_length_zero body h0] at hf
      cases hf
    have hec : firstchar body = some c := execFirst_of_firstNonWs _ _ hf
    have hpb : parseBody true rev body = .error (createStrictSyntaxError body c) := by
      unfold parseBody
      rw [if_neg hne, if_pos rfl, hec]
      dsimp only
      rw [if_neg]
      intro hor
      rcases hor with h | h
      · exact hc1 h
      · exact hc2 h
    refine ⟨hpb, ?_, rfl, ?_, rfl⟩
    · unfold handleParse
      rw [hpb]
    · unfold readerWrapParseError
      rw [createStrictSyntaxError_props]
      rfl
  · intro v hv
    have hne : body.length ≠ 0 := by
      intro h0
      rw [eq_empty_of_length_zero body h0] at hv
      cases hv
    unfold parseBody
    rw [if_neg hne]
    simp only [Bool.false_eq_true, if_false]
    unfold JSONparseE
    rw [hv]

/-- Witness for C2 at the scalar body `42`: strict mode rejects it with
a 400 `entity.parse.failed`, non-strict mode parses it to the number
42. -/
theorem c2_strict_scalar_rejection_witness :
    parseBody true (fun v => v) "42" = .error (createStrictSyntaxError "42" '4') ∧
    (readerWrapParseError (createStrictSyntaxError "42" '4') "42").type =
      "entity.parse.failed" ∧
    parseBody false (fun v => v) "42" = .ok (Json.num 42) :=
  ⟨((c2_strict_scalar_rejection (fun v => v) "42" '4').1 rfl (by decide) (by decide)).1,
   ((c2_strict_scalar_rejection (fun v => v) "42" '4').1 rfl (by decide) (by decide)).2.2.2.1,
   (c2_strict_scalar_rejection (fun v => v) "42" '4').2 (Json.num 42) rfl⟩

/-- Does a body text reach the `JSON.parse` call inside `parseBody`?
It must be non-empty, and in strict mode its first character found by
the regex must be `{` or `[`. -/
def reachesParse (strict : Bool) (body : String) : Prop :=
  body.length ≠ 0 ∧
  (strict = true → ∃ c, firstchar body = some c ∧ (c = '{' ∨ c = '['))

/-- The error produced by normalizing the native parser error of a
body, exactly as the catch block of `parseBody` does
(`normalizeJsonSyntaxError(e, { message: e.message, stack: e.stack })`). -/
def normalizedEngineError (body : String) : ErrObj :=
  normalizeJsonSyntaxError (engineError body) (engineError body).message (engineError body).stack

/-- C6: whenever the JSON parser raises an exception, `parseBody`
propagates it with every own property other than `message` and `stack`
removed, the stack rewritten by substituting the original message text
with the normalized message, and the Reader wraps it into the stable
shape: kind `entity.parse.failed`, HTTP status 400, carrying the raw
body text. -/
theorem c6_parser_error_normalized :
    ∀ (strict : Bool) (rev : Json → Json) (body : String),
      reachesParse strict body → JSONparse body = none →
      parseBody strict rev body = .error (normalizedEngineError body) ∧
      (normalizedEngineError body).props = [] ∧
      (normalizedEngineError body).message = (engineError body).message ∧
      (normalizedEngineError body).stack =
        replaceFirst (engineError body).stack (engineError body).message
          (engineError body).message ∧
      handleParse strict rev body =
        .error (readerWrapParseError (normalizedEngineError body) body) ∧
      (readerWrapParseError (normalizedEngineError body) body).status = 400 ∧
      (readerWrapParseError (normalizedEngineError body) body).type =
        "entity.parse.failed" ∧
      (readerWrapParseError (normalizedEngineError body) body).body = some body := by
  intro strict rev body hreach hparse
  obtain ⟨hne, hstrict⟩ := hreach
  have hpe : JSONparseE body = .error (engineError body) := by
    unfold JSONparseE
    rw [hparse]
  have hpb : parseBody strict rev body = .error (normalizedEngineError body) := by
    cases strict with
    | false =>
      unfold parseBody
      rw [if_neg hne]
      simp only [Bool.false_eq_true, if_false, hpe]
      rfl
    | true =>
      obtain ⟨c, hc, hor⟩ := hstrict rfl
      unfold parseBody
      rw [if_neg hne, if_pos rfl, hc]
      dsimp only
      rw [if_pos hor, hpe]
      rfl
  refine ⟨hpb, rfl, rfl, rfl, ?_, rfl, rfl, rfl⟩
  unfold handleParse
  rw [hpb]

/-- Witness for C6 at the body `{`: the parser fails, and the wrapped
error is a 400 `entity.parse.failed` carrying the body. -/
theorem c6_parser_error_normalized_witness :
    parseBody true (fun v => v) "\x7b" = .error (normalizedEngineError "\x7b") ∧
    (readerWrapParseError (normalizedEngineError "\x7b") "\x7b").status = 400 ∧
    (readerWrapParseError (normalizedEngineError "\x7b") "\x7b").type =
      "entity.parse.failed" :=
  ⟨(c6_parser_error_normalized true (fun v => v) "\x7b"
      ⟨by decide, fun _ => ⟨'{', rfl, Or.inl rfl⟩⟩ rfl).1,
   (c6_parser_error_normalized true (fun v => v) "\x7b"
      ⟨by decide, fun _ => ⟨'{', rfl, Or.inl rfl⟩⟩ rfl).2.2.2.2.2.1,
   (c6_parser_error_normalized true (fun v => v) "\x7b"
      ⟨by decide, fun _ => ⟨'{', rfl, Or.inl rfl⟩⟩ rfl).2.2.2.2.2.2.1⟩

/-- Two strings with the same characters are equal. -/
theorem string_eq_of_data (a b : String) (h : a.data = b.data) : a = b := by
  cases a with
  | mk da =>
    cases b with
    | mk db =>
      simp only at h
      rw [h]

/-- String append is associative. -/
theorem strAppend_assoc (a b c : String) : a ++ b ++ c = a ++ (b ++ c) := by
  apply string_eq_of_data
  simp [String.data_append]

/-- The value parser rejects any input whose first token character
starts no production. -/
theorem parseV_stuck (fuel : Nat) (l : List Char) (c : Char) (t : List Char)
    (hskip : skipWs l = c :: t)
    (h1 : c ≠ '{') (h2 : c ≠ '[') (h3 : c ≠ '"') (h4 : c ≠ 'n') (h5 : c ≠ 't')
    (h6 : c ≠ 'f') (h7 : ¬(c = '-' ∨ c.isDigit = true)) :
    parseV fuel l = none := by
  cases fuel with
  | zero => rfl
  | succ f =>
    unfold parseV
    rw [hskip]
    dsimp only
    rw [if_neg h1, if_neg h2, if_neg h3, if_neg h4, if_neg h5, if_neg h6, if_neg h7]

/-- Replacing the first occurrence of a single character not occurring
in the prefix. -/
theorem replaceFirstAux_singleton (c : Char) (rep l1 l2 : List Char) (h : c ∉ l1) :
    replaceFirstAux [c] rep (l1 ++ c :: l2) = l1 ++ rep ++ l2 := by
  induction l1 with
  | nil =>
    simp only [List.nil_append, replaceFirstAux]
    rw [if_pos]
    · simp
    · simp [List.isPrefixOf]
  | cons x xs ih =>
    have hxc : c ≠ x := fun he => h (he ▸ List.mem_cons_self x xs)
    simp only [List.cons_append, replaceFirstAux]
    rw [if_neg]
    · show x :: replaceFirstAux [c] rep (xs ++ c :: l2) = (x :: xs) ++ rep ++ l2
      rw [ih (fun hm => h (List.mem_cons_of_mem x hm))]
      simp
    · simp [List.isPrefixOf, hxc]

/-- Substituting the placeholder back: `message.replace('#', char)` on
a message whose prefix does not contain the placeholder. -/
theorem replaceFirst_hash (a tailS : String) (c : Char) (ha : '#' ∉ a.data) :
    replaceFirst (a ++ String.singleton '#' ++ tailS) "#" (String.singleton c) =
      a ++ String.singleton c ++ tailS := by
  unfold replaceFirst
  rw [if_neg (by decide)]
  apply string_eq_of_data
  show replaceFirstAux ['#'] [c] ((a ++ String.singleton '#' ++ tailS).data)
      = (a ++ String.singleton c ++ tailS).data
  have hd : (a ++ String.singleton '#' ++ tailS).data = a.data ++ '#' :: tailS.data := by
    rw [String.data_append, String.data_append]
    simp
  rw [hd, replaceFirstAux_singleton _ _ _ _ ha, String.data_append, String.data_append]
  simp

/-- The native error of a body made of JSON whitespace followed by the
placeholder: an unexpected-token message naming `#` at the position
right after the whitespace. -/
theorem engineError_ws_hash (pre : List Char) (hpre : ∀ w ∈ pre, jsonWs w = true) :
    engineError (String.mk (pre ++ ['#'])) =
      { name := "SyntaxError"
        message := "Unexpected token " ++ String.singleton '#' ++
          (" in JSON at position " ++ toString pre.length)
        stack := "SyntaxError: " ++
          ("Unexpected token " ++ String.singleton '#' ++
            (" in JSON at position " ++ toString pre.length)) ++
          "\n    at JSON.parse (<anonymous>)"
        props := [("rawPosition", toString pre.length)] } := by
  unfold engineError
  rw [show (String.mk (pre ++ ['#'])).data = pre ++ ['#'] from rfl]
  rw [dropWhile_append_block jsonWs pre ['#'] hpre (by show jsonWs '#' = false; decide)]
  rw [takeWhile_append_block jsonWs pre ['#'] hpre (by show jsonWs '#' = false; decide)]
  dsimp only
  rw [show ∀ x y : String, x ++ String.singleton '#' ++ y = x ++ (String.singleton '#' ++ y) from
    fun x y => strAppend_assoc x (String.singleton '#') y]
  constructor

/-- C7 (amended): for a strict violation whose offending character is
preceded only by JSON whitespace, the error is built exactly by
truncating the body before the offending character, appending the `#`
placeholder, parsing that string with the JSON parser to obtain a
native syntax error, substituting the placeholder back and
normalizing; the resulting message names the actual offending
character at its real position. -/
theorem c7_strict_error_construction :
    ∀ (str : String) (pre suf : List Char) (c : Char),
      str.data = pre ++ c :: suf →
      (∀ w ∈ pre, jsonWs w = true) →
      jsWhitespace c = false →
      createStrictSyntaxError str c =
        normalizeJsonSyntaxError (engineError (String.mk (pre ++ ['#'])))
          (replaceFirst (engineError (String.mk (pre ++ ['#']))).message "#"
            (String.singleton c))
          (engineError (String.mk (pre ++ ['#']))).stack ∧
      (createStrictSyntaxError str c).message =
        "Unexpected token " ++ String.singleton c ++
          (" in JSON at position " ++ toString pre.length) := by
  intro str pre suf c hdec hpre hcws
  have hjc : jsonWs c = false := by
    cases hj : jsonWs c
    · rfl
    · rw [jsonWs_imp_jsWhitespace c hj] at hcws; cases hcws
  have hmem : c ∈ str.data := by rw [hdec]; simp
  have htw : str.data.takeWhile (fun x => x != c) = pre := by
    rw [hdec]
    apply takeWhile_append_block
    · intro w hw
      have hwc : w ≠ c := by
        intro he
        subst he
        rw [hpre w hw] at hjc
        cases hjc
      simp [hwc]
    · show (c != c) = false
      simp
  have hparse : JSONparseE (String.mk (pre ++ ['#'])) =
      .error (engineError (String.mk (pre ++ ['#']))) := by
    unfold JSONparseE JSONparse
    rw [show (String.mk (pre ++ ['#'])).data = pre ++ ['#'] from rfl]
    rw [parseV_stuck _ _ '#' []
      (dropWhile_append_block jsonWs pre ['#'] hpre (by show jsonWs '#' = false; decide))
      (by decide) (by decide) (by decide) (by decide) (by decide) (by decide) (by decide)]
  have hstrict : createStrictSyntaxError str c =
      normalizeJsonSyntaxError (engineError (String.mk (pre ++ ['#'])))
        (replaceFirst (engineError (String.mk (pre ++ ['#']))).message "#"
          (String.singleton c))
        (engineError (String.mk (pre ++ ['#']))).stack := by
    unfold createStrictSyntaxError
    rw [if_pos hmem, htw]
    dsimp only
    rw [hparse]
  refine ⟨hstrict, ?_⟩
  rw [hstrict]
  show replaceFirst (engineError (String.mk (pre ++ ['#']))).message "#"
      (String.singleton c) = _
  rw [engineError_ws_hash pre hpre]
  show replaceFirst
      ("Unexpected token " ++ String.singleton '#' ++
        (" in JSON at position " ++ toString pre.length)) "#" (String.singleton c) = _
  exact replaceFirst_hash _ _ _ (by decide)

/-- The body consisting of a vertical tab and the digit 5: the vertical
tab is `\s`-whitespace for the regex but not JSON whitespace for the
parser. -/
def vtBody : String := String.mk [Char.ofNat 11, '5']

/-- Counterexample to C7 as stated: for the strict violation on the
body `"\u000b5"` the offending character found by `firstchar` is `5`
at position 1, but the constructed error's message reports the
vertical tab at position 0 and does not mention `5` at all — the
truncated text `"\u000b#"` fails at the vertical tab, so the
placeholder never appears in the native message and the substitution
does nothing. -/
theorem c7_counterexample :
    firstchar vtBody = some '5' ∧
    (createStrictSyntaxError vtBody '5').message =
      "Unexpected token " ++ String.singleton (Char.ofNat 11) ++
        " in JSON at position 0" ∧
    ((createStrictSyntaxError vtBody '5').message.data.contains '5') = false ∧
    (createStrictSyntaxError vtBody '5').message ≠
      "Unexpected token 5 in JSON at position 1" := by
  refine ⟨rfl, rfl, rfl, ?_⟩
  decide

/-- Witness for the amended C7 at the claim's own example body
`"abc"`: the offending character is the quote at position 0 and the
message names it there. -/
theorem c7_strict_error_construction_witness :
    (createStrictSyntaxError "\"abc\"" '"').message =
      "Unexpected token " ++ String.singleton '"' ++
        (" in JSON at position " ++ toString (List.length ([] : List Char))) :=
  (c7_strict_error_construction "\"abc\"" [] ['a', 'b', 'c', '"'] '"' rfl
    (by intro w hw; cases hw) (by decide)).2

/-- Decimal digit characters are digits. -/
theorem digitChar_isDigit (d : Nat) (h : d < 10) : (Nat.digitChar d).isDigit = true := by
  interval_cases d <;> decide

/-- `digitVal` undoes `Nat.digitChar` on decimal digits. -/
theorem digitVal_digitChar (d : Nat) (h : d < 10) : digitVal (Nat.digitChar d) = d := by
  interval_cases d <;> decide

/-- `hexVal` undoes `Nat.digitChar` on hexadecimal digits. -/
theorem hexVal_digitChar (d : Nat) (h : d < 16) : hexVal (Nat.digitChar d) = some d := by
  interval_cases d <;> decide

/-- Folding most-significant-first digit values is `Nat.ofDigits` of the
reversed list. -/
theorem foldr_ofDigits (L : List Nat) :
    L.foldr (fun d acc => acc * 10 + d) 0 = Nat.ofDigits 10 L := by
  induction L with
  | nil => rfl
  | cons d t ih =>
    simp only [List.foldr, Nat.ofDigits_cons, ih]
    ring

/-- Digit folding ignores the conversion through `digitChar` when all
digits are below 10. -/
theorem foldl_digitChar (L : List Nat) (hL : ∀ d ∈ L, d < 10) :
    ∀ acc : Nat,
      L.foldl (fun a d => a * 10 + digitVal (Nat.digitChar d)) acc =
        L.foldl (fun a d => a * 10 + d) acc := by
  induction L with
  | nil => intro acc; rfl
  | cons d t ih =>
    intro acc
    simp only [List.foldl]
    rw [digitVal_digitChar d (hL d (by simp))]
    exact ih (fun x hx => hL x (by simp [hx])) _

/-- Parsing back the decimal rendering of a natural number. -/
theorem digitsToNat_encodeNat (n : Nat) : digitsToNat (encodeNat n) = n := by
  unfold encodeNat
  by_cases h : n = 0
  · subst h
    rfl
  · rw [if_neg h]
    unfold digitsToNat
    rw [List.foldl_map]
    rw [foldl_digitChar _ (fun d hd => Nat.digits_lt_base (by norm_num)
      (List.mem_reverse.mp hd)) 0]
    rw [List.foldl_reverse]
    have hfr : (Nat.digits 10 n).foldr (fun x y => y * 10 + x) 0 =
        (Nat.digits 10 n).foldr (fun d acc => acc * 10 + d) 0 := rfl
    rw [hfr, foldr_ofDigits, Nat.ofDigits_digits]

/-- Every character of the decimal rendering is a digit. -/
theorem encodeNat_all_digits (n : Nat) : ∀ c ∈ encodeNat n, c.isDigit = true := by
  unfold encodeNat
  by_cases h : n = 0
  · subst h
    intro c hc
    simp at hc
    subst hc
    decide
  · rw [if_neg h]
    intro c hc
    obtain ⟨d, hd, hdc⟩ := List.mem_map.mp hc
    subst hdc
    exact digitChar_isDigit d (Nat.digits_lt_base (by norm_num) (List.mem_reverse.mp hd))

/-- The decimal rendering is never empty. -/
theorem encodeNat_ne_nil (n : Nat) : encodeNat n ≠ [] := by
  unfold encodeNat
  by_cases h : n = 0
  · subst h
    simp
  · rw [if_neg h]
    simp [Nat.digits_ne_nil_iff_ne_zero.mpr h]

/-- The decimal rendering starts with a digit. -/
theorem encodeNat_head (n : Nat) :
    ∃ c t, encodeNat n = c :: t ∧ c.isDigit = true := by
  cases hc : encodeNat n with
  | nil => exact absurd hc (encodeNat_ne_nil n)
  | cons c t => exact ⟨c, t, rfl, encodeNat_all_digits n c (by rw [hc]; simp)⟩

/-- The rendering of an integer starts with a minus sign or a digit. -/
theorem encodeInt_head (i : Int) :
    ∃ c t, encodeInt i = c :: t ∧ (c = '-' ∨ c.isDigit = true) := by
  unfold encodeInt
  by_cases hi : i < 0
  · rw [if_pos hi]
    exact ⟨'-', encodeNat i.natAbs, rfl, Or.inl rfl⟩
  · rw [if_neg hi]
    obtain ⟨c, t, hct, hc⟩ := encodeNat_head i.natAbs
    exact ⟨c, t, hct, Or.inr hc⟩

/-- A minus sign or digit heads no other production of the value
grammar. -/
theorem numHead_ne (c : Char) (hc : c = '-' ∨ c.isDigit = true) :
    c ≠ '{' ∧ c ≠ '[' ∧ c ≠ '"' ∧ c ≠ 'n' ∧ c ≠ 't' ∧ c ≠ 'f' := by
  rcases hc with h | h
  · subst h
    exact ⟨by decide, by decide, by decide, by decide, by decide, by decide⟩
  · refine ⟨?_, ?_, ?_, ?_, ?_, ?_⟩ <;> (intro he; subst he; exact absurd h (by decide))

/-- Parsing back the rendering of an integer, followed by a non-digit
remainder. -/
theorem parseNumber_encodeInt (i : Int) (rest : List Char)
    (hrest : headFails Char.isDigit rest) :
    parseNumber (encodeInt i ++ rest) = some (.num i, rest) := by
  unfold encodeInt
  by_cases hi : i < 0
  · rw [if_pos hi]
    show parseNumber ('-' :: (encodeNat i.natAbs ++ rest)) = _
    unfold parseNumber
    rw [if_pos (show ('-' :: (encodeNat i.natAbs ++ rest)).head? = some '-' from rfl)]
    dsimp only [List.tail_cons]
    rw [takeWhile_append_block _ _ _ (encodeNat_all_digits _) hrest,
        dropWhile_append_block _ _ _ (encodeNat_all_digits _) hrest,
        if_neg (encodeNat_ne_nil _), digitsToNat_encodeNat]
    have hvi : (-(i.natAbs : Int)) = i := by omega
    rw [hvi]
  · rw [if_neg hi]
    obtain ⟨c, t, hct, hc⟩ := encodeNat_head i.natAbs
    unfold parseNumber
    have hhead : ¬((encodeNat i.natAbs ++ rest).head? = some '-') := by
      rw [hct]
      intro hh
      have hcc : c = '-' := by simpa using hh
      subst hcc
      exact absurd hc (by decide)
    rw [if_neg hhead]
    dsimp only
    rw [takeWhile_append_block _ _ _ (encodeNat_all_digits _) hrest,
        dropWhile_append_block _ _ _ (encodeNat_all_digits _) hrest,
        if_neg (encodeNat_ne_nil _), digitsToNat_encodeNat]
    have hvi : ((i.natAbs : Int)) = i := by omega
    rw [hvi]

/-- The string body parser closes at an unescaped quote. -/
theorem parseStringBody_quote (rest : List Char) :
    parseStringBody ('"' :: rest) = some ([], rest) := by
  unfold parseStringBody
  rw [if_pos rfl]

/-- The string body parser decodes a short escape and recurses. -/
theorem parseStringBody_escape (e d : Char) (rest : List Char)
    (he : e ≠ 'u') (hd : unescapeShort e = some d) :
    parseStringBody ('\\' :: e :: rest) =
      (parseStringBody rest).map (fun p => (d :: p.1, p.2)) := by
  conv_lhs => unfold parseStringBody
  rw [if_neg (by decide), if_pos rfl]
  dsimp only
  rw [if_neg he, hd]

/-- The string body parser decodes a `\uXXXX` escape and recurses. -/
theorem parseStringBody_uescape (e1 e2 e3 e4 : Char) (a b c3 d : Nat) (rest : List Char)
    (ha : hexVal e1 = some a) (hb : hexVal e2 = some b)
    (hc : hexVal e3 = some c3) (hd : hexVal e4 = some d) :
    parseStringBody ('\\' :: 'u' :: e1 :: e2 :: e3 :: e4 :: rest) =
      (parseStringBody rest).map
        (fun p => (Char.ofNat (((a * 16 + b) * 16 + c3) * 16 + d) :: p.1, p.2)) := by
  conv_lhs => unfold parseStringBody
  rw [if_neg (by decide), if_pos rfl]
  dsimp only
  rw [if_pos rfl, ha, hb, hc, hd]

/-- The string body parser keeps a plain character and recurses. -/
theorem parseStringBody_plain (c : Char) (rest : List Char)
    (h1 : c ≠ '"') (h2 : c ≠ '\\') (h3 : ¬ c.toNat < 32) :
    parseStringBody (c :: rest) =
      (parseStringBody rest).map (fun p => (c :: p.1, p.2)) := by
  conv_lhs => unfold parseStringBody
  rw [if_neg h1, if_neg h2, if_neg h3]

/-- Parsing back the escaped rendering of string characters: the string
body parser undoes `escList` up to the closing quote. -/
theorem parseStringBody_escList (l rest : List Char) :
    parseStringBody (escList l ++ '"' :: rest) = some (l, rest) := by
  induction l with
  | nil =>
    show parseStringBody ('"' :: rest) = some ([], rest)
    exact parseStringBody_quote rest
  | cons c cs ih =>
    show parseStringBody ((escapeChar c ++ escList cs) ++ '"' :: rest) = some (c :: cs, rest)
    rw [List.append_assoc]
    unfold escapeChar
    by_cases h1 : c = '"'
    · subst h1
      rw [if_pos rfl]
      rw [show ((['\\', '"'] : List Char) ++ (escList cs ++ '"' :: rest))
          = '\\' :: '"' :: (escList cs ++ '"' :: rest) from rfl]
      rw [parseStringBody_escape _ _ _ (by decide)
        (show unescapeShort '"' = some '"' from rfl), ih]
      rfl
    · rw [if_neg h1]
      by_cases h2 : c = '\\'
      · subst h2
        rw [if_pos rfl]
        rw [show ((['\\', '\\'] : List Char) ++ (escList cs ++ '"' :: rest))
            = '\\' :: '\\' :: (escList cs ++ '"' :: rest) from rfl]
        rw [parseStringBody_escape _ _ _ (by decide)
          (show unescapeShort '\\' = some '\\' from rfl), ih]
        rfl
      · rw [if_neg h2]
        by_cases h3 : c.toNat = 8
        · rw [if_pos h3]
          have hc8 : unescapeShort 'b' = some c := by
            rw [show unescapeShort 'b' = some (Char.ofNat 8) from rfl, ← h3, Char.ofNat_toNat]
          rw [show ((['\\', 'b'] : List Char) ++ (escList cs ++ '"' :: rest))
              = '\\' :: 'b' :: (escList cs ++ '"' :: rest) from rfl]
          rw [parseStringBody_escape _ _ _ (by decide) hc8, ih]
          rfl
        · rw [if_neg h3]
          by_cases h4 : c = '\t'
          · subst h4
            rw [if_pos rfl]
            rw [show ((['\\', 't'] : List Char) ++ (escList cs ++ '"' :: rest))
                = '\\' :: 't' :: (escList cs ++ '"' :: rest) from rfl]
            rw [parseStringBody_escape _ _ _ (by decide)
              (show unescapeShort 't' = some '\t' from rfl), ih]
            rfl
          · rw [if_neg h4]
            by_cases h5 : c = '\n'
            · subst h5
              rw [if_pos rfl]
              rw [show ((['\\', 'n'] : List Char) ++ (escList cs ++ '"' :: rest))
                  = '\\' :: 'n' :: (escList cs ++ '"' :: rest) from rfl]
              rw [parseStringBody_escape _ _ _ (by decide)
                (show unescapeShort 'n' = some '\n' from rfl), ih]
              rfl
            · rw [if_neg h5]
              by_cases h6 : c.toNat = 12
              · rw [if_pos h6]
                have hc12 : unescapeShort 'f' = some c := by
                  rw [show unescapeShort 'f' = some (Char.ofNat 12) from rfl, ← h6, Char.ofNat_toNat]
                rw [show ((['\\', 'f'] : List Char) ++ (escList cs ++ '"' :: rest))
                    = '\\' :: 'f' :: (escList cs ++ '"' :: rest) from rfl]
                rw [parseStringBody_escape _ _ _ (by decide) hc12, ih]
                rfl
              · rw [if_neg h6]
                by_cases h7 : c = '\r'
                · subst h7
                  rw [if_pos rfl]
                  rw [show ((['\\', 'r'] : List Char) ++ (escList cs ++ '"' :: rest))
                      = '\\' :: 'r' :: (escList cs ++ '"' :: rest) from rfl]
                  rw [parseStringBody_escape _ _ _ (by decide)
                    (show unescapeShort 'r' = some '\r' from rfl), ih]
                  rfl
                · rw [if_neg h7]
                  by_cases h8 : c.toNat < 32
                  · rw [if_pos h8]
                    have hhi : hexVal (Nat.digitChar (c.toNat / 16)) = some (c.toNat / 16) :=
                      hexVal_digitChar _ (by omega)
                    have hlo : hexVal (Nat.digitChar (c.toNat % 16)) = some (c.toNat % 16) :=
                      hexVal_digitChar _ (Nat.mod_lt _ (by norm_num))
                    have h0 : hexVal '0' = some 0 := rfl
                    rw [show ((['\\', 'u', '0', '0', Nat.digitChar (c.toNat / 16),
                          Nat.digitChar (c.toNat % 16)] : List Char) ++ (escList cs ++ '"' :: rest))
                        = '\\' :: 'u' :: '0' :: '0' :: Nat.digitChar (c.toNat / 16) ::
                          Nat.digitChar (c.toNat % 16) :: (escList cs ++ '"' :: rest) from rfl]
                    rw [parseStringBody_uescape _ _ _ _ _ _ _ _ _ h0 h0 hhi hlo, ih]
                    have hchar : Char.ofNat (((0 * 16 + 0) * 16 + c.toNat / 16) * 16 + c.toNat % 16) = c := by
                      have harith : ((0 * 16 + 0) * 16 + c.toNat / 16) * 16 + c.toNat % 16 = c.toNat := by
                        omega
                      rw [harith, Char.ofNat_toNat]
                    rw [show (some (cs, rest)).map
                          (fun p => (Char.ofNat (((0 * 16 + 0) * 16 + c.toNat / 16) * 16 + c.toNat % 16) :: p.1, p.2))
                        = some (Char.ofNat (((0 * 16 + 0) * 16 + c.toNat / 16) * 16 + c.toNat % 16) :: cs, rest) from rfl]
                    rw [hchar]
                  · rw [if_neg h8]
                    rw [show (([c] : List Char) ++ (escList cs ++ '"' :: rest))
                        = c :: (escList cs ++ '"' :: rest) from rfl]
                    rw [parseStringBody_plain _ _ h1 h2 h8, ih]
                    rfl

/-- The rendering of every value starts with a character that opens one
of the grammar's productions. -/
theorem encodeJson_head (v : Json) :
    ∃ c t, encodeJson v = c :: t ∧
      (c = '{' ∨ c = '[' ∨ c = '"' ∨ c = 'n' ∨ c = 't' ∨ c = 'f' ∨ c = '-' ∨
        c.isDigit = true) := by
  cases v with
  | null => exact ⟨'n', _, rfl, by decide⟩
  | bool b =>
    cases b with
    | true => exact ⟨'t', _, rfl, by decide⟩
    | false => exact ⟨'f', _, rfl, by decide⟩
  | num i =>
    obtain ⟨c, t, hct, hc⟩ := encodeInt_head i
    refine ⟨c, t, hct, ?_⟩
    rcases hc with h | h
    · subst h; decide
    · right; right; right; right; right; right; right; exact h
  | str s => exact ⟨'"', _, rfl, by decide⟩
  | arr xs =>
    cases xs with
    | nil => exact ⟨'[', _, rfl, by decide⟩
    | cons x t => exact ⟨'[', _, rfl, by decide⟩
  | obj kvs =>
    cases kvs with
    | nil => exact ⟨'{', _, rfl, by decide⟩
    | cons kv t =>
      cases kv with
      | mk k v => exact ⟨'{', _, rfl, by decide⟩

/-- Production-opening characters are not JSON whitespace and close no
bracket. -/
theorem headChar_facts (c : Char)
    (h : c = '{' ∨ c = '[' ∨ c = '"' ∨ c = 'n' ∨ c = 't' ∨ c = 'f' ∨ c = '-' ∨
      c.isDigit = true) :
    jsonWs c = false ∧ c ≠ ']' ∧ c ≠ '}' := by
  rcases h with h | h | h | h | h | h | h | h
  · subst h; exact ⟨rfl, by decide, by decide⟩
  · subst h; exact ⟨rfl, by decide, by decide⟩
  · subst h; exact ⟨rfl, by decide, by decide⟩
  · subst h; exact ⟨rfl, by decide, by decide⟩
  · subst h; exact ⟨rfl, by decide, by decide⟩
  · subst h; exact ⟨rfl, by decide, by decide⟩
  · subst h; exact ⟨rfl, by decide, by decide⟩
  · refine ⟨?_, ?_, ?_⟩
    · cases hw : jsonWs c
      · rfl
      · exfalso
        simp only [jsonWs, Bool.or_eq_true, decide_eq_true_eq] at hw
        rcases hw with ((hw | hw) | hw) | hw <;> (subst hw; exact absurd h (by decide))
    · intro he; subst he; exact absurd h (by decide)
    · intro he; subst he; exact absurd h (by decide)

/-- Skipping whitespace is the identity on a rendered value followed by
anything. -/
theorem skipWs_encode_append (v : Json) (rest : List Char) :
    skipWs (encodeJson v ++ rest) = encodeJson v ++ rest := by
  obtain ⟨c, t, hct, hc⟩ := encodeJson_head v
  rw [hct]
  show skipWs (c :: (t ++ rest)) = c :: (t ++ rest)
  exact skipWs_cons_not_ws _ _ (headChar_facts c hc).1

/-- Key membership distributes over append. -/
theorem keysContains_append (a b : List (String × Json)) (k : String) :
    keysContains (a ++ b) k = (keysContains a k || keysContains b k) := by
  induction a with
  | nil => rfl
  | cons p t ih =>
    cases p with
    | mk k0 v0 =>
      show keysContains ((k0, v0) :: (t ++ b)) k = _
      by_cases hk : k0 = k
      · simp [keysContains, hk]
      · simp only [keysContains, if_neg hk, ih]

/-- Inserting a fresh key appends the pair. -/
theorem jsInsert_append (acc : List (String × Json)) (k : String) (v : Json)
    (h : keysContains acc k = false) : jsInsert acc k v = acc ++ [(k, v)] := by
  induction acc with
  | nil => rfl
  | cons p t ih =>
    cases p with
    | mk k0 v0 =>
      have hk : k0 ≠ k := by
        intro he
        rw [show keysContains ((k0, v0) :: t) k = if k0 = k then true else keysContains t k
          from rfl, if_pos he] at h
        cases h
      have ht : keysContains t k = false := by
        rw [show keysContains ((k0, v0) :: t) k = if k0 = k then true else keysContains t k
          from rfl, if_neg hk] at h
        exact h
      show jsInsert ((k0, v0) :: t) k v = _
      unfold jsInsert
      rw [if_neg hk, ih ht]
      rfl

/-- Moving the head member of the remaining block into the accumulator
preserves key distinctness, and its key is fresh for the
accumulator. -/
theorem nodupKeys_shift (acc : List (String × Json)) (k : String) (v : Json)
    (t : List (String × Json)) (h : nodupKeys (acc ++ (k, v) :: t) = true) :
    keysContains acc k = false ∧ nodupKeys ((acc ++ [(k, v)]) ++ t) = true := by
  induction acc with
  | nil =>
    refine ⟨rfl, ?_⟩
    simpa using h
  | cons p pt ih =>
    cases p with
    | mk k0 v0 =>
      have hh : nodupKeys ((k0, v0) :: (pt ++ (k, v) :: t)) = true := by simpa using h
      rw [show nodupKeys ((k0, v0) :: (pt ++ (k, v) :: t)) =
        (!(keysContains (pt ++ (k, v) :: t) k0) && nodupKeys (pt ++ (k, v) :: t))
        from rfl] at hh
      obtain ⟨hnc, hrest⟩ := Bool.and_eq_true_iff.mp hh
      obtain ⟨ih1, ih2⟩ := ih hrest
      have hk0k : k0 ≠ k := by
        intro he
        subst he
        rw [keysContains_append] at hnc
        have : keysContains ((k0, v) :: t) k0 = true := by
          show (if k0 = k0 then true else keysContains t k0) = true
          rw [if_pos rfl]
        rw [this] at hnc
        simp at hnc
      constructor
      · show (if k0 = k then true else keysContains pt k) = false
        rw [if_neg hk0k]
        exact ih1
      · show nodupKeys ((k0, v0) :: ((pt ++ [(k, v)]) ++ t)) = true
        rw [show nodupKeys ((k0, v0) :: ((pt ++ [(k, v)]) ++ t)) =
          (!(keysContains ((pt ++ [(k, v)]) ++ t) k0) && nodupKeys ((pt ++ [(k, v)]) ++ t))
          from rfl]
        refine Bool.and_eq_true_iff.mpr ⟨?_, ih2⟩
        rw [keysContains_append] at hnc
        rw [keysContains_append, keysContains_append]
        have hsingle : keysContains [(k, v)] k0 = false := by
          show (if k = k0 then true else false) = false
          rw [if_neg (Ne.symm hk0k)]
        have hcons : keysContains ((k, v) :: t) k0 = keysContains t k0 := by
          show (if k = k0 then true else keysContains t k0) = _
          rw [if_neg (Ne.symm hk0k)]
        rw [hcons] at hnc
        rw [hsingle]
        simp only [Bool.or_false]
        exact hnc

/-- Every value needs at least one unit of fuel. -/
theorem fm_pos (v : Json) : 1 ≤ fm v := by
  cases v with
  | null => exact le_refl 1
  | bool b => exact le_refl 1
  | num n => exact le_refl 1
  | str s => exact le_refl 1
  | arr xs => show 1 ≤ 1 + fmItems xs; omega
  | obj kvs => show 1 ≤ 1 + fmMembers kvs; omega

mutual

/-- The fuel measure of a value is at most the length of its
rendering. -/
theorem fm_le_encode (v : Json) : fm v ≤ (encodeJson v).length := by
  cases v with
  | null => decide
  | bool b => cases b <;> decide
  | num i =>
    obtain ⟨c, t, hct, _⟩ := encodeInt_head i
    show fm (Json.num i) ≤ (encodeInt i).length
    rw [hct]
    show 1 ≤ (c :: t).length
    simp
  | str s =>
    show 1 ≤ (encodeStringJ s).length
    show 1 ≤ ('"' :: escList s.data ++ ['"']).length
    simp
  | arr xs =>
    cases xs with
    | nil => decide
    | cons x t =>
      show 1 + fmItems (x :: t) ≤ ('[' :: (encodeJson x ++ encodeItemsA t) ++ [']']).length
      have hit := fmItems_le_encode x t
      simp only [List.cons_append, List.length_cons, List.length_append] at *
      omega
  | obj kvs =>
    cases kvs with
    | nil => decide
    | cons kv t =>
      cases kv with
      | mk k v0 =>
        show 1 + fmMembers ((k, v0) :: t) ≤
          ('{' :: (encodeStringJ k ++ ':' :: encodeJson v0 ++ encodeMembersA t) ++ ['}']).length
        have hit := fmMembers_le_encode k v0 t
        simp only [List.cons_append, List.length_cons, List.length_append] at *
        omega
termination_by sizeOf v

/-- The fuel measure of an element block is bounded by its rendering
length plus one. -/
theorem fmItems_le_encode (x : Json) (xs : List Json) :
    fmItems (x :: xs) ≤ (encodeJson x ++ encodeItemsA xs).length + 1 := by
  cases xs with
  | nil =>
    show 1 + fm x + fmItems [] ≤ (encodeJson x ++ encodeItemsA ([] : List Json)).length + 1
    have hv := fm_le_encode x
    show 1 + fm x + 0 ≤ (encodeJson x ++ []).length + 1
    simp only [List.append_nil]
    omega
  | cons y ys =>
    show 1 + fm x + fmItems (y :: ys) ≤
      (encodeJson x ++ (',' :: encodeJson y ++ encodeItemsA ys)).length + 1
    have hv := fm_le_encode x
    have hit := fmItems_le_encode y ys
    simp only [List.cons_append, List.length_cons, List.length_append] at *
    omega
termination_by 1 + sizeOf x + sizeOf xs

/-- The fuel measure of a member block is bounded by its rendering
length plus one. -/
theorem fmMembers_le_encode (k : String) (v : Json) (kvs : List (String × Json)) :
    fmMembers ((k, v) :: kvs) ≤
      (encodeStringJ k ++ ':' :: encodeJson v ++ encodeMembersA kvs).length + 1 := by
  cases kvs with
  | nil =>
    show 1 + fm v + 0 ≤
      (encodeStringJ k ++ ':' :: encodeJson v ++ encodeMembersA ([] : List (String × Json))).length + 1
    have hv := fm_le_encode v
    show 1 + fm v + 0 ≤ (encodeStringJ k ++ ':' :: encodeJson v ++ []).length + 1
    simp only [List.append_nil, List.length_append, List.length_cons] at *
    omega
  | cons kv2 t =>
    cases kv2 with
    | mk k2 v2 =>
      show 1 + fm v + fmMembers ((k2, v2) :: t) ≤
        (encodeStringJ k ++ ':' :: encodeJson v ++
          (',' :: encodeStringJ k2 ++ ':' :: encodeJson v2 ++ encodeMembersA t)).length + 1
      have hv := fm_le_encode v
      have hit := fmMembers_le_encode k2 v2 t
      simp only [List.cons_append, List.length_cons, List.length_append] at *
      omega
termination_by 1 + sizeOf v + sizeOf kvs

end

/-- The rendering of one object member followed by the rest of the
member block. -/
def encKV (k : String) (v : Json) (kvs : List (String × Json)) : List Char :=
  encodeStringJ k ++ ':' :: encodeJson v ++ encodeMembersA kvs

/-- A member rendering starts with the quoted key. -/
theorem encKV_shape (k : String) (v : Json) (kvs : List (String × Json)) (X : List Char) :
    encKV k v kvs ++ X =
      '"' :: (escList k.data ++ '"' :: (':' :: (encodeJson v ++ (encodeMembersA kvs ++ X)))) := by
  unfold encKV encodeStringJ
  simp [List.append_assoc]

/-- An element block continuation starts with a comma. -/
theorem encodeItemsA_shape (y : Json) (ys : List Json) (X : List Char) :
    encodeItemsA (y :: ys) ++ X = ',' :: ((encodeJson y ++ encodeItemsA ys) ++ X) := by
  show (',' :: encodeJson y ++ encodeItemsA ys) ++ X = _
  simp [List.append_assoc]

/-- A member block continuation starts with a comma. -/
theorem encodeMembersA_shape (k2 : String) (v2 : Json) (t2 : List (String × Json)) (X : List Char) :
    encodeMembersA ((k2, v2) :: t2) ++ X = ',' :: (encKV k2 v2 t2 ++ X) := by
  show (',' :: encodeStringJ k2 ++ ':' :: encodeJson v2 ++ encodeMembersA t2) ++ X = _
  unfold encKV
  simp [List.append_assoc]

/-- `skipWs` is the identity when the head is not whitespace. -/
theorem skipWs_noop_head (l : List Char) (c : Char) (hl : l.head? = some c)
    (hc : jsonWs c = false) : skipWs l = l := by
  cases l with
  | nil => rfl
  | cons a t =>
    have hac : a = c := by simpa using hl
    subst hac
    exact skipWs_cons_not_ws _ _ hc

/-- A member rendering's head character is the quote. -/
theorem encKV_headq (k : String) (v : Json) (kvs : List (String × Json)) (X : List Char) :
    (encKV k v kvs ++ X).head? = some '"' := by
  rw [encKV_shape]
  rfl

/-- Completeness of the spec-modelled parser on the spec-modelled
encoder: with enough fuel the value parser consumes exactly the
rendering of a well-formed value and returns that value; likewise for
the element and member loops. -/
theorem encode_complete : ∀ fuel : Nat,
    (∀ (v : Json) (rest : List Char), fm v ≤ fuel → headFails Char.isDigit rest →
      wfJson v = true → parseV fuel (encodeJson v ++ rest) = some (v, rest)) ∧
    (∀ (x : Json) (xs : List Json) (acc : List Json) (rest : List Char),
      fmItems (x :: xs) ≤ fuel → wfArr (x :: xs) = true →
      parseItemsA fuel ((encodeJson x ++ encodeItemsA xs) ++ ']' :: rest) acc =
        some (.arr (acc ++ x :: xs), rest)) ∧
    (∀ (k : String) (v : Json) (kvs : List (String × Json))
        (acc : List (String × Json)) (rest : List Char),
      fmMembers ((k, v) :: kvs) ≤ fuel →
      nodupKeys (acc ++ (k, v) :: kvs) = true → wfMembers ((k, v) :: kvs) = true →
      parseMembers fuel (encKV k v kvs ++ '}' :: rest) acc =
        some (.obj (acc ++ (k, v) :: kvs), rest)) := by
  intro fuel
  induction fuel with
  | zero =>
    refine ⟨?_, ?_, ?_⟩
    · intro v rest hfm _ _
      exact absurd hfm (by have := fm_pos v; omega)
    · intro x xs acc rest hfm _
      exact absurd hfm (by show ¬(1 + fm x + fmItems xs ≤ 0); omega)
    · intro k v kvs acc rest hfm _ _
      exact absurd hfm (by show ¬(1 + fm v + fmMembers kvs ≤ 0); omega)
  | succ f ih =>
    obtain ⟨ihV, ihA, ihM⟩ := ih
    refine ⟨?_, ?_, ?_⟩
    · intro v rest hfm hrest hwf
      cases v with
      | null => rfl
      | bool b => cases b <;> rfl
      | num i =>
        obtain ⟨c, t, hct, hc⟩ := encodeInt_head i
        obtain ⟨hne1, hne2, hne3, hne4, hne5, hne6⟩ := numHead_ne c hc
        unfold parseV
        rw [skipWs_encode_append]
        rw [show encodeJson (Json.num i) = c :: t from hct, List.cons_append]
        dsimp only
        rw [if_neg hne1, if_neg hne2, if_neg hne3, if_neg hne4, if_neg hne5, if_neg hne6,
            if_pos hc]
        rw [← List.cons_append, ← hct]
        exact parseNumber_encodeInt i rest hrest
      | str s =>
        have hshape : encodeJson (Json.str s) ++ rest = '"' :: (escList s.data ++ '"' :: rest) := by
          show ('"' :: escList s.data ++ ['"']) ++ rest = _
          simp [List.append_assoc]
        unfold parseV
        rw [hshape, skipWs_cons_not_ws _ _ (by decide)]
        dsimp only
        rw [if_neg (by decide), if_neg (by decide), if_pos rfl, parseStringBody_escList]
      | arr xs =>
        cases xs with
        | nil => rfl
        | cons x txs =>
          have hwf2 : wfJson x = true ∧ wfArr txs = true := by
            have he : wfJson (Json.arr (x :: txs)) = (wfJson x && wfArr txs) := rfl
            rw [he] at hwf
            exact Bool.and_eq_true_iff.mp hwf
          have hfm2 : fmItems (x :: txs) ≤ f := by
            have he : fm (Json.arr (x :: txs)) = 1 + fmItems (x :: txs) := rfl
            rw [he] at hfm
            omega
          have hshape : encodeJson (Json.arr (x :: txs)) ++ rest =
              '[' :: ((encodeJson x ++ encodeItemsA txs) ++ ']' :: rest) := by
            show ('[' :: (encodeJson x ++ encodeItemsA txs) ++ [']']) ++ rest = _
            simp [List.append_assoc]
          unfold parseV
          rw [hshape, skipWs_cons_not_ws _ _ (by decide)]
          dsimp only
          rw [if_neg (by decide), if_pos rfl]
          have hr2 : skipWs ((encodeJson x ++ encodeItemsA txs) ++ ']' :: rest) =
              (encodeJson x ++ encodeItemsA txs) ++ ']' :: rest := by
            rw [List.append_assoc]
            exact skipWs_encode_append x _
          rw [hr2]
          obtain ⟨c0, t0, hct0, hc0⟩ := encodeJson_head x
          have hhead : ((encodeJson x ++ encodeItemsA txs) ++ ']' :: rest).head? ≠ some ']' := by
            rw [hct0]
            intro hh
            have hcc : c0 = ']' := by simpa using hh
            exact (headChar_facts c0 hc0).2.1 hcc
          rw [if_neg hhead]
          exact ihA x txs [] rest hfm2 hwf
      | obj kvs =>
        cases kvs with
        | nil => rfl
        | cons kv t =>
          cases kv with
          | mk k v0 =>
            have hwfsplit : nodupKeys ((k, v0) :: t) = true ∧ wfMembers ((k, v0) :: t) = true := by
              have he : wfJson (Json.obj ((k, v0) :: t)) =
                  (nodupKeys ((k, v0) :: t) && wfMembers ((k, v0) :: t)) := rfl
              rw [he] at hwf
              exact Bool.and_eq_true_iff.mp hwf
            have hfm2 : fmMembers ((k, v0) :: t) ≤ f := by
              have he : fm (Json.obj ((k, v0) :: t)) = 1 + fmMembers ((k, v0) :: t) := rfl
              rw [he] at hfm
              omega
            have hshape : encodeJson (Json.obj ((k, v0) :: t)) ++ rest =
                '{' :: (encKV k v0 t ++ '}' :: rest) := by
              show ('{' :: (encodeStringJ k ++ ':' :: encodeJson v0 ++ encodeMembersA t) ++ ['}']) ++ rest = _
              unfold encKV
              simp [List.append_assoc]
            unfold parseV
            rw [hshape, skipWs_cons_not_ws _ _ (by decide)]
            dsimp only
            rw [if_pos rfl]
            have hr2 : skipWs (encKV k v0 t ++ '}' :: rest) = encKV k v0 t ++ '}' :: rest :=
              skipWs_noop_head _ _ (encKV_headq k v0 t _) (by decide)
            rw [hr2]
            have hhead : (encKV k v0 t ++ '}' :: rest).head? ≠ some '}' := by
              rw [encKV_headq k v0 t _]
              decide
            rw [if_neg hhead]
            exact ihM k v0 t [] rest hfm2 (by simpa using hwfsplit.1) hwfsplit.2
    · intro x xs acc rest hfm hwf
      have hfmx : fm x ≤ f := by
        have he : fmItems (x :: xs) = 1 + fm x + fmItems xs := rfl
        rw [he] at hfm
        omega
      obtain ⟨hwfx, hwfxs⟩ : wfJson x = true ∧ wfArr xs = true := by
        have he : wfArr (x :: xs) = (wfJson x && wfArr xs) := rfl
        rw [he] at hwf
        exact Bool.and_eq_true_iff.mp hwf
      have hrest2 : headFails Char.isDigit (encodeItemsA xs ++ ']' :: rest) := by
        cases xs with
        | nil => exact (show Char.isDigit ']' = false from rfl)
        | cons y ys =>
          rw [encodeItemsA_shape]
          exact (show Char.isDigit ',' = false from rfl)
      unfold parseItemsA
      rw [List.append_assoc, ihV x _ hfmx hrest2 hwfx]
      dsimp only
      cases xs with
      | nil =>
        rw [show encodeItemsA ([] : List Json) ++ ']' :: rest = ']' :: rest from rfl]
        rw [skipWs_cons_not_ws _ _ (by decide)]
        rw [if_neg (show ¬((']' :: rest).head? = some ',') from by intro h; simp at h)]
        rw [if_pos (show (']' :: rest).head? = some ']' from rfl)]
        rfl
      | cons y ys =>
        rw [encodeItemsA_shape, skipWs_cons_not_ws _ _ (by decide)]
        rw [if_pos (show ((',' :: ((encodeJson y ++ encodeItemsA ys) ++ ']' :: rest)).head?) =
          some ',' from rfl)]
        dsimp only [List.tail_cons]
        have hfm3 : fmItems (y :: ys) ≤ f := by
          have he : fmItems (x :: y :: ys) = 1 + fm x + fmItems (y :: ys) := rfl
          rw [he] at hfm
          omega
        rw [ihA y ys (acc ++ [x]) rest hfm3 hwfxs]
        have hacc : (acc ++ [x]) ++ y :: ys = acc ++ x :: y :: ys := by simp
        rw [hacc]
    · intro k v kvs acc rest hfm hnd hwf
      have hfmv : fm v ≤ f := by
        have he : fmMembers ((k, v) :: kvs) = 1 + fm v + fmMembers kvs := rfl
        rw [he] at hfm
        omega
      obtain ⟨hwfv, hwfkvs⟩ : wfJson v = true ∧ wfMembers kvs = true := by
        have he : wfMembers ((k, v) :: kvs) = (wfJson v && wfMembers kvs) := rfl
        rw [he] at hwf
        exact Bool.and_eq_true_iff.mp hwf
      obtain ⟨hfresh, hshift⟩ := nodupKeys_shift acc k v kvs hnd
      have hins : jsInsert acc (String.mk k.data) v = acc ++ [(k, v)] := by
        rw [show String.mk k.data = k from rfl]
        exact jsInsert_append acc k v hfresh
      have hrest2 : headFails Char.isDigit (encodeMembersA kvs ++ '}' :: rest) := by
        cases kvs with
        | nil => exact (show Char.isDigit '}' = false from rfl)
        | cons kv2 t2 =>
          cases kv2 with
          | mk k2 v2 =>
            rw [encodeMembersA_shape]
            exact (show Char.isDigit ',' = false from rfl)
      unfold parseMembers
      rw [encKV_shape]
      dsimp only
      rw [if_pos (show ('"' : Char) = '"' from rfl)]
      rw [parseStringBody_escList]
      dsimp only
      rw [skipWs_cons_not_ws _ _ (by decide)]
      rw [if_pos (show ((':' :: (encodeJson v ++ (encodeMembersA kvs ++ '}' :: rest))).head?) =
        some ':' from rfl)]
      dsimp only [List.tail_cons]
      rw [ihV v _ hfmv hrest2 hwfv]
      dsimp only
      cases kvs with
      | nil =>
        rw [show encodeMembersA ([] : List (String × Json)) ++ '}' :: rest = '}' :: rest from rfl]
        rw [skipWs_cons_not_ws _ _ (by decide)]
        rw [if_neg (show ¬(('}' :: rest).head? = some ',') from by intro h; simp at h)]
        rw [if_pos (show ('}' :: rest).head? = some '}' from rfl)]
        dsimp only [List.tail_cons]
        rw [hins]
      | cons kv2 t2 =>
        cases kv2 with
        | mk k2 v2 =>
          rw [encodeMembersA_shape, skipWs_cons_not_ws _ _ (by decide)]
          rw [if_pos (show ((',' :: (encKV k2 v2 t2 ++ '}' :: rest)).head?) = some ','
            from rfl)]
          dsimp only [List.tail_cons]
          have hskip3 : skipWs (encKV k2 v2 t2 ++ '}' :: rest) = encKV k2 v2 t2 ++ '}' :: rest :=
            skipWs_noop_head _ _ (encKV_headq k2 v2 t2 _) (by decide)
          rw [hskip3, hins]
          have hfm3 : fmMembers ((k2, v2) :: t2) ≤ f := by
            have he : fmMembers ((k, v) :: (k2, v2) :: t2) =
                1 + fm v + fmMembers ((k2, v2) :: t2) := rfl
            rw [he] at hfm
            omega
          rw [ihM k2 v2 t2 (acc ++ [(k, v)]) rest hfm3 hshift hwfkvs]
          have hacc2 : (acc ++ [(k, v)]) ++ (k2, v2) :: t2 = acc ++ (k, v) :: (k2, v2) :: t2 := by
            simp
          rw [hacc2]

/-- Round trip: parsing the rendering of a well-formed value returns
the value. -/
theorem JSONparse_stringify (v : Json) (h : wfJson v = true) :
    JSONparse (stringify v) = some v := by
  unfold JSONparse stringify
  rw [show (String.mk (encodeJson v)).data = encodeJson v from rfl]
  have hc := (encode_complete ((encodeJson v).length + 1)).1 v []
    (by have := fm_le_encode v; omega) trivial h
  rw [List.append_nil] at hc
  rw [hc]
  rfl

/-- Is the value an object or an array (the roots strict mode
admits)? -/
def isContainer : Json → Bool
  | .obj _ => true
  | .arr _ => true
  | _ => false

/-- The element loop only ever returns arrays. -/
theorem parseItemsA_arr (fuel : Nat) :
    ∀ (cs : List Char) (acc : List Json) (v : Json) (r : List Char),
      parseItemsA fuel cs acc = some (v, r) → ∃ xs, v = .arr xs := by
  induction fuel with
  | zero => intro cs acc v r h; cases h
  | succ f ih =>
    intro cs acc v r h
    unfold parseItemsA at h
    cases hp : parseV f cs with
    | none => rw [hp] at h; cases h
    | some p =>
      rw [hp] at h
      cases p with
      | mk v1 r1 =>
        dsimp only at h
        by_cases h1 : (skipWs r1).head? = some ','
        · rw [if_pos h1] at h
          exact ih _ _ _ _ h
        · rw [if_neg h1] at h
          by_cases h2 : (skipWs r1).head? = some ']'
          · rw [if_pos h2] at h
            simp only [Option.some.injEq, Prod.mk.injEq] at h
            exact ⟨_, h.1.symm⟩
          · rw [if_neg h2] at h
            cases h

/-- The member loop only ever returns objects. -/
theorem parseMembers_obj (fuel : Nat) :
    ∀ (cs : List Char) (acc : List (String × Json)) (v : Json) (r : List Char),
      parseMembers fuel cs acc = some (v, r) → ∃ kvs, v = .obj kvs := by
  induction fuel with
  | zero => intro cs acc v r h; cases h
  | succ f ih =>
    intro cs acc v r h
    unfold parseMembers at h
    cases cs with
    | nil => cases h
    | cons c rest =>
      dsimp only at h
      by_cases hq : c = '"'
      · rw [if_pos hq] at h
        cases hps : parseStringBody rest with
        | none => rw [hps] at h; cases h
        | some p =>
          rw [hps] at h
          cases p with
          | mk key r1 =>
            dsimp only at h
            by_cases h1 : (skipWs r1).head? = some ':'
            · rw [if_pos h1] at h
              cases hpv : parseV f (skipWs r1).tail with
              | none => rw [hpv] at h; cases h
              | some q =>
                rw [hpv] at h
                cases q with
                | mk v1 r3 =>
                  dsimp only at h
                  by_cases h2 : (skipWs r3).head? = some ','
                  · rw [if_pos h2] at h
                    exact ih _ _ _ _ h
                  · rw [if_neg h2] at h
                    by_cases h3 : (skipWs r3).head? = some '}'
                    · rw [if_pos h3] at h
                      simp only [Option.some.injEq, Prod.mk.injEq] at h
                      exact ⟨_, h.1.symm⟩
                    · rw [if_neg h3] at h
                      cases h
            · rw [if_neg h1] at h
              cases h
      · rw [if_neg hq] at h
        cases h

/-- The number production only ever returns numbers. -/
theorem parseNumber_num (cs : List Char) (v : Json) (r : List Char)
    (h : parseNumber cs = some (v, r)) : ∃ i, v = .num i := by
  unfold parseNumber at h
  by_cases h1 : cs.head? = some '-'
  · rw [if_pos h1] at h
    dsimp only at h
    by_cases h2 : cs.tail.takeWhile Char.isDigit = []
    · rw [if_pos h2] at h
      cases h
    · rw [if_neg h2] at h
      simp only [Option.some.injEq, Prod.mk.injEq] at h
      exact ⟨_, h.1.symm⟩
  · rw [if_neg h1] at h
    dsimp only at h
    by_cases h2 : cs.takeWhile Char.isDigit = []
    · rw [if_pos h2] at h
      cases h
    · rw [if_neg h2] at h
      simp only [Option.some.injEq, Prod.mk.injEq] at h
      exact ⟨_, h.1.symm⟩

/-- A successful parse of a container consumes a brace or bracket as
its first token character. -/
theorem parseV_container_head (fuel : Nat) (cs : List Char) (v : Json) (r : List Char)
    (h : parseV fuel cs = some (v, r)) (hv : isContainer v = true) :
    ∃ c t, skipWs cs = c :: t ∧ (c = '{' ∨ c = '[') := by
  cases fuel with
  | zero => cases h
  | succ f =>
    unfold parseV at h
    cases hs : skipWs cs with
    | nil => rw [hs] at h; cases h
    | cons c rest =>
      rw [hs] at h
      dsimp only at h
      by_cases h1 : c = '{'
      · exact ⟨c, rest, rfl, Or.inl h1⟩
      · rw [if_neg h1] at h
        by_cases h2 : c = '['
        · exact ⟨c, rest, rfl, Or.inr h2⟩
        · rw [if_neg h2] at h
          exfalso
          by_cases h3 : c = '"'
          · rw [if_pos h3] at h
            cases hps : parseStringBody rest with
            | none => rw [hps] at h; cases h
            | some p =>
              rw [hps] at h
              simp only [Option.some.injEq, Prod.mk.injEq] at h
              rw [← h.1] at hv
              cases hv
          · rw [if_neg h3] at h
            by_cases h4 : c = 'n'
            · rw [if_pos h4] at h
              split at h
              · simp only [Option.some.injEq, Prod.mk.injEq] at h
                rw [← h.1] at hv
                cases hv
              · cases h
            · rw [if_neg h4] at h
              by_cases h5 : c = 't'
              · rw [if_pos h5] at h
                split at h
                · simp only [Option.some.injEq, Prod.mk.injEq] at h
                  rw [← h.1] at hv
                  cases hv
                · cases h
              · rw [if_neg h5] at h
                by_cases h6 : c = 'f'
                · rw [if_pos h6] at h
                  split at h
                  · simp only [Option.some.injEq, Prod.mk.injEq] at h
                    rw [← h.1] at hv
                    cases hv
                  · cases h
                · rw [if_neg h6] at h
                  by_cases h7 : c = '-' ∨ c.isDigit = true
                  · rw [if_pos h7] at h
                    obtain ⟨i, hi⟩ := parseNumber_num _ _ _ h
                    rw [hi] at hv
                    cases hv
                  · rw [if_neg h7] at h
                    cases h

/-- Modelled from the spec: the reference JSON decoder with the same
reviver as the component (the reviver abstracted as a transformation of
the parsed value, applied identically on both sides). -/
def JSONparseWithReviver (rev : Json → Json) (body : String) : Option Json :=
  (JSONparse body).map rev

/-- A body that parses to a container passes the strict first-character
check: the regex finds `{` or `[`. -/
theorem JSONparse_container_strictPass (body : String) (v : Json)
    (h : JSONparse body = some v) (hv : isContainer v = true) :
    ∃ c, firstchar body = some c ∧ (c = '{' ∨ c = '[') := by
  unfold JSONparse at h
  cases hp : parseV (body.data.length + 1) body.data with
  | none => rw [hp] at h; cases h
  | some p =>
    rw [hp] at h
    cases p with
    | mk v1 r1 =>
      dsimp only at h
      by_cases hr : skipWs r1 = []
      · rw [if_pos hr] at h
        have hv1 : v1 = v := by simpa using h
        subst hv1
        obtain ⟨c, t, hskip, hc⟩ := parseV_container_head _ _ _ _ hp hv
        have hdec : body.data = body.data.takeWhile jsonWs ++ (c :: t) := by
          conv_lhs => rw [← List.takeWhile_append_dropWhile (p := jsonWs) (l := body.data)]
          rw [show body.data.dropWhile jsonWs = c :: t from hskip]
        refine ⟨c, ?_, hc⟩
        show execFirst body.data = some c
        rw [hdec]
        apply execFirst_append_ws
        · intro w hw
          exact jsonWs_imp_jsWhitespace w (mem_takeWhile_pred _ _ _ hw)
        · apply execFirst_cons_not_ws
          rcases hc with hc | hc <;> (subst hc; decide)
      · rw [if_neg hr] at h
        cases h

/-- C1: with strict enabled and any reviver, every body that is
well-formed JSON with an object or array root parses successfully to
exactly the value the reference decoder produces with the same
reviver; and rendering any well-formed object- or array-rooted value
with the reference encoder and parsing it back yields the original
value (round trip). -/
theorem c1_strict_parse_roundtrip :
    (∀ (rev : Json → Json) (body : String) (v : Json),
      JSONparse body = some v → isContainer v = true →
      parseBody true rev body = .ok (rev v) ∧
      JSONparseWithReviver rev body = some (rev v)) ∧
    (∀ v : Json, isContainer v = true → wfJson v = true →
      parseBody true (fun x => x) (stringify v) = .ok v ∧
      JSONparse (stringify v) = some v) := by
  have main : ∀ (rev : Json → Json) (body : String) (v : Json),
      JSONparse body = some v → isContainer v = true →
      parseBody true rev body = .ok (rev v) ∧
      JSONparseWithReviver rev body = some (rev v) := by
    intro rev body v h hv
    have hne : body.length ≠ 0 := by
      intro h0
      rw [eq_empty_of_length_zero body h0] at h
      cases h
    obtain ⟨c, hfc, hc⟩ := JSONparse_container_strictPass body v h hv
    have hpe : JSONparseE body = .ok v := by
      unfold JSONparseE
      rw [h]
    constructor
    · unfold parseBody
      rw [if_neg hne, if_pos rfl, hfc]
      dsimp only
      rw [if_pos hc, hpe]
    · unfold JSONparseWithReviver
      rw [h]
      rfl
  refine ⟨main, ?_⟩
  intro v hv hwf
  have hrt := JSONparse_stringify v hwf
  exact ⟨(main (fun x => x) (stringify v) v hrt hv).1, hrt⟩

/-- Witness for C1: the array body `[1]` parses in strict mode to the
array, and the rendering of the object from the counterexample-free
case round-trips. -/
theorem c1_strict_parse_roundtrip_witness :
    parseBody true (fun x => x) "[1]" = .ok (Json.arr [Json.num 1]) ∧
    parseBody true (fun x => x) (stringify (Json.obj [("a", Json.null)])) =
      .ok (Json.obj [("a", Json.null)]) ∧
    JSONparse (stringify (Json.obj [("a", Json.null)])) =
      some (Json.obj [("a", Json.null)]) :=
  ⟨(c1_strict_parse_roundtrip.1 (fun x => x) "[1]" (Json.arr [Json.num 1]) rfl rfl).1,
   (c1_strict_parse_roundtrip.2 (Json.obj [("a", Json.null)]) rfl rfl).1,
   (c1_strict_parse_roundtrip.2 (Json.obj [("a", Json.null)]) rfl rfl).2⟩
